import Mathlib

/-!
Shallow embedding of `src/optimizer/optimizer.cpp` (the foveated-panorama
transcoder: `Optimizer::optimizeImage` / `Optimizer::extractImage` and the
`OptimizedImage` record), together with proofs settling the specification
claims.

Modelling conventions:
* `cv::Mat` becomes `Image`: a row count, a column count and a total pixel
  map (one abstract intensity per pixel; the fixed channel count is a
  constant byte factor).  All counts are `Int`, matching the C++ `int`
  arithmetic including its truncating division (`Int.tdiv`).
* C++ `double` angle-to-pixel scaling (`angle * (width / 360.0)` truncated
  on assignment to `int`) is modelled by the exact truncated quotient
  `Int.tdiv (angle * width) 360`; IEEE rounding of the intermediate product
  is abstracted to exact arithmetic.
* OpenCV calls that assert (`CV_Assert` inside `Mat` ROI constructors,
  `cv::resize`, `cv::hconcat`/`cv::vconcat`) and the source's own
  `REQUIRES`/`ASSERT`/`ENSURES` contracts are collected into decidable
  validity predicates (`optimizeOk`, `extractOk`); the transforms
  themselves are total functions on the model.
* `cv::resize` content is modelled by nearest sampling; every claim below
  depends only on the *sizes* of resized panels, never on their pixels.
-/

namespace Conduit

/-- Models `cv::Size`: a width/height pair of C++ `int`s. -/
structure Size where
  width : Int
  height : Int
deriving DecidableEq, Repr

/-- Models `cv::Mat`: a pixel buffer with `rows` rows and `cols` columns.
`pix r c` is the pixel in row `r`, column `c`; out-of-range lookups are
unconstrained junk values, and every operation that would index out of
range in OpenCV is guarded by a separate `...Ok` predicate. -/
structure Image where
  rows : Int
  cols : Int
  pix : Int → Int → Int

/-- Models `cv::Mat::size()`: width is the column count, height the row count. -/
def Image.size (m : Image) : Size := ⟨m.cols, m.rows⟩

/-- Models the ROI constructor `Mat(m, Range(r1, r2), Range(c1, c2))`:
a view of the half-open row range `[r1, r2)` and column range `[c1, c2)`. -/
def subMat (m : Image) (r1 r2 c1 c2 : Int) : Image :=
  ⟨r2 - r1, c2 - c1, fun r c => m.pix (r1 + r) (c1 + c)⟩

/-- Models the `CV_Assert` bounds check inside the `Mat` ROI constructor. -/
def subMatOk (m : Image) (r1 r2 c1 c2 : Int) : Prop :=
  0 ≤ r1 ∧ r1 ≤ r2 ∧ r2 ≤ m.rows ∧ 0 ≤ c1 ∧ c1 ≤ c2 ∧ c2 ≤ m.cols

/-- Models `Mat(m, Range::all(), Range(c1, c2))`. -/
def colRange (m : Image) (c1 c2 : Int) : Image := subMat m 0 m.rows c1 c2

/-- Models `Mat(m, Range(r1, r2))` (all columns). -/
def rowRange (m : Image) (r1 r2 : Int) : Image := subMat m r1 r2 0 m.cols

/-- Models `cv::hconcat a b`: `b` appended to the right of `a`. -/
def hconcat (a b : Image) : Image :=
  ⟨a.rows, a.cols + b.cols,
    fun r c => if c < a.cols then a.pix r c else b.pix r (c - a.cols)⟩

/-- Models the row-count compatibility assertion of `cv::hconcat`. -/
def hconcatOk (a b : Image) : Prop := a.rows = b.rows

/-- Models `cv::vconcat a b`: `b` appended below `a`. -/
def vconcat (a b : Image) : Image :=
  ⟨a.rows + b.rows, a.cols,
    fun r c => if r < a.rows then a.pix r c else b.pix (r - a.rows) c⟩

/-- Models the column-count compatibility assertion of `cv::vconcat`. -/
def vconcatOk (a b : Image) : Prop := a.cols = b.cols

/-- Modelled from the spec: `ImageUtil::hconcat3` (declared in the repository
but not under `src/`) reassembles the horizontal stack left + middle + right
(spec section 4.5 step 3), i.e. two successive `cv::hconcat` calls. -/
def hconcat3 (a b c : Image) : Image := hconcat (hconcat a b) c

/-- Row-compatibility assertions of the two concatenations in `hconcat3`. -/
def hconcat3Ok (a b c : Image) : Prop := hconcatOk a b ∧ hconcatOk (hconcat a b) c

/-- Modelled from the spec: `ImageUtil::vconcat3` (declared in the repository
but not under `src/`) reassembles the vertical stack top + focused + bottom
(spec section 4.5 step 2), i.e. two successive `cv::vconcat` calls. -/
def vconcat3 (a b c : Image) : Image := vconcat (vconcat a b) c

/-- Column-compatibility assertions of the two concatenations in `vconcat3`. -/
def vconcat3Ok (a b c : Image) : Prop := vconcatOk a b ∧ vconcatOk (vconcat a b) c

/-- Models `cv::resize(src, dst, d)` with an explicit destination size:
the result has exactly the requested dimensions; pixel content is nearest
sampling (the claims below never depend on interpolated pixel values). -/
def resize (src : Image) (d : Size) : Image :=
  ⟨d.height, d.width,
    fun r c => src.pix ((r * src.rows) / d.height) ((c * src.cols) / d.width)⟩

/-- Models the assertions of `cv::resize`: non-empty source, and (since the
call sites always pass an explicit `dsize` and zero scale factors) a
non-empty destination size. -/
def resizeOk (src : Image) (d : Size) : Prop :=
  0 < src.rows ∧ 0 < src.cols ∧ 0 < d.height ∧ 0 < d.width

/-- Models `Mat(rows, cols, type)` followed by `setTo(Scalar(0,0,0))`:
a black panel. -/
def black (rows cols : Int) : Image := ⟨rows, cols, fun _ _ => 0⟩

/-- Modelled from the spec: `ImageUtil::imageSize` (declared in the repository
but not under `src/`), the byte size of one panel: pixel count times a fixed
per-pixel byte count (3 channels, 1 byte each; uniform across all panels and
the source frame). -/
def imageSize (m : Image) : Int := m.rows * m.cols * 3

/-- The `OptimizedImage` record (optimizer.cpp lines 16-34): five panels
plus reconstruction metadata.  The constructor stores shallow copies, so
field values are exactly the constructor arguments. -/
structure OptimizedImage where
  focused : Image
  blurredLeft : Image
  blurredRight : Image
  blurredTop : Image
  blurredBottom : Image
  origHSize : Size
  origVSize : Size
  fullSize : Size
  leftBuffer : Int

/-- Models `OptimizedImage::size()` (lines 36-42): the summed byte sizes of
the five panels. -/
def OptimizedImage.size (o : OptimizedImage) : Int :=
  imageSize o.focused + imageSize o.blurredLeft + imageSize o.blurredRight +
    imageSize o.blurredTop + imageSize o.blurredBottom

/-- Hardcoded constant `CROP_ANGLE` (line 11). -/
def CROP_ANGLE : Int := 120

/-- Hardcoded constant `H_FOCUS_ANGLE` (line 12). -/
def H_FOCUS_ANGLE : Int := 20

/-- Hardcoded constant `V_FOCUS_ANGLE` (line 13). -/
def V_FOCUS_ANGLE : Int := 20

/-- Hardcoded constant `BLUR_FACTOR` (line 14). -/
def BLUR_FACTOR : Int := 5

/-- Models the `int` overload of `constrainAngle` (lines 44-50): C++ `%` is
truncating remainder (`Int.tmod`), followed by the sign correction. -/
def constrainAngle (x : Int) : Int :=
  if Int.tmod x 360 < 0 then Int.tmod x 360 + 360 else Int.tmod x 360

/-- Truncation of a rational toward zero, the rounding used by C `fmod`
and by `double`-to-`int` conversion. -/
def ratTrunc (q : ℚ) : Int := if q < 0 then ⌈q⌉ else ⌊q⌋

/-- Models C `fmod` on exact rationals: `fmod x y = x - y * trunc (x / y)`
(`fmod` is exact in IEEE arithmetic; the arguments are modelled as exact
rationals). -/
def fmod (x y : ℚ) : ℚ := x - y * (ratTrunc (x / y) : ℚ)

/-- Models the `double` overload of `constrainAngle` (lines 52-59) in
exact real arithmetic: every operation is computed without rounding.
The compiled overload differs at one point -- the IEEE rounding of the
sign-correcting addition -- which is modelled separately by
`constrainAngleDouble`. -/
def constrainAngleReal (x : ℚ) : ℚ :=
  if fmod x 360 < 0 then fmod x 360 + 360 else fmod x 360

/-- Round-to-nearest integer with ties to even, the IEEE 754 default
rounding. -/
def rnEven (x : ℚ) : ℤ :=
  if x - ⌊x⌋ < 1 / 2 then ⌊x⌋
  else if 1 / 2 < x - ⌊x⌋ then ⌊x⌋ + 1
  else if 2 ∣ ⌊x⌋ then ⌊x⌋ else ⌊x⌋ + 1

/-- Rounds an exact rational to the nearest IEEE binary64 value:
round-to-nearest-even on a 53-bit significand at the value's own binade
(subnormal underflow and overflow are out of range for every value
considered here). -/
def roundB64 (q : ℚ) : ℚ :=
  if q = 0 then 0
  else (rnEven (q / 2 ^ (Int.log 2 |q| - 52)) : ℚ) * 2 ^ (Int.log 2 |q| - 52)

/-- Models the `double` overload of `constrainAngle` (lines 52-59) with
IEEE binary64 semantics: `fmod` of two doubles is exact (a standard
property of `fmod`), the sign test is exact, and the one inexact
operation is the addition `x += 360`, whose result is rounded to the
nearest representable value. -/
def constrainAngleDouble (x : ℚ) : ℚ :=
  if fmod x 360 < 0 then roundB64 (fmod x 360 + 360) else fmod x 360

namespace Opt

/-!
Locals of `Optimizer::optimizeImage(image, angle, vAngle)` (lines 61-153),
as functions of the inputs.  Angle-to-pixel products (`double` multiply,
truncated on assignment to `int`) are the exact truncated quotients.
-/

/-- Line 73: `leftAngle = constrainAngle(angle - CROP_ANGLE / 2)` (the
incoming `angle` was already normalized on line 65). -/
def leftAngle (angle : Int) : Int :=
  constrainAngle (constrainAngle angle - CROP_ANGLE / 2)

/-- Line 74: `rightAngle = constrainAngle(angle + CROP_ANGLE / 2)`. -/
def rightAngle (angle : Int) : Int :=
  constrainAngle (constrainAngle angle + CROP_ANGLE / 2)

/-- Line 76: `leftCol = leftAngle * angleToWidth`, with
`angleToWidth = width / 360.0`. -/
def leftCol (width angle : Int) : Int := Int.tdiv (leftAngle angle * width) 360

/-- Line 77: `rightCol = rightAngle * angleToWidth`. -/
def rightCol (width angle : Int) : Int := Int.tdiv (rightAngle angle * width) 360

/-- Lines 84-95: the crop.  `leftCol < rightCol` takes the contiguous
column range; otherwise the window wraps around the seam and the two
pieces are concatenated, `[leftCol, width)` first. -/
def cropped (image : Image) (angle : Int) : Image :=
  if leftCol image.cols angle < rightCol image.cols angle then
    colRange image (leftCol image.cols angle) (rightCol image.cols angle)
  else
    hconcat (colRange image (leftCol image.cols angle) image.cols)
      (colRange image 0 (rightCol image.cols angle))

/-- Column count of the crop, as plain arithmetic. -/
def croppedCols (width angle : Int) : Int :=
  if leftCol width angle < rightCol width angle then
    rightCol width angle - leftCol width angle
  else
    width - leftCol width angle + rightCol width angle

/-- Line 99: `focusWidth = H_FOCUS_ANGLE * angleToWidth`. -/
def focusWidth (width : Int) : Int := Int.tdiv (H_FOCUS_ANGLE * width) 360

/-- Line 101: `focusLeftCol = cropped.cols / 2 - focusWidth / 2`. -/
def focusLeftCol (width angle : Int) : Int :=
  Int.tdiv (croppedCols width angle) 2 - Int.tdiv (focusWidth width) 2

/-- Line 102: `focusRightCol = cropped.cols / 2 + focusWidth / 2`. -/
def focusRightCol (width angle : Int) : Int :=
  Int.tdiv (croppedCols width angle) 2 + Int.tdiv (focusWidth width) 2

/-- Line 108: `middle`, the full-resolution horizontal focus band. -/
def middle (image : Image) (angle : Int) : Image :=
  colRange (cropped image angle) (focusLeftCol image.cols angle)
    (focusRightCol image.cols angle)

/-- Line 109: `left`, the left peripheral strip of the crop. -/
def left (image : Image) (angle : Int) : Image :=
  colRange (cropped image angle) 0 (focusLeftCol image.cols angle)

/-- Line 110: `right`, the right peripheral strip of the crop. -/
def right (image : Image) (angle : Int) : Image :=
  colRange (cropped image angle) (focusRightCol image.cols angle)
    (cropped image angle).cols

/-- Line 114: `origHSize = left.size()`. -/
def origHSize (image : Image) (angle : Int) : Size := (left image angle).size

/-- Line 120: `smallSize = Size(left.cols / BLUR_FACTOR, left.rows / BLUR_FACTOR)`. -/
def smallSize (image : Image) (angle : Int) : Size :=
  ⟨Int.tdiv (left image angle).cols BLUR_FACTOR,
    Int.tdiv (left image angle).rows BLUR_FACTOR⟩

/-- Line 121: `blurredLeft` after `cv::resize(left, blurredLeft, smallSize)`. -/
def blurredLeft (image : Image) (angle : Int) : Image :=
  resize (left image angle) (smallSize image angle)

/-- Line 122: `blurredRight` after `cv::resize(right, blurredRight, smallSize)`
(note: the destination size is the one computed from `left`). -/
def blurredRight (image : Image) (angle : Int) : Image :=
  resize (right image angle) (smallSize image angle)

/-- Line 126: `focusHeight = V_FOCUS_ANGLE * angleToHeight`, with
`angleToHeight = height / 180.0`. -/
def focusHeight (height : Int) : Int := Int.tdiv (V_FOCUS_ANGLE * height) 180

/-- Line 127: `focusMiddleRow = vAngle * angleToHeight` (`vAngle` may be
negative; C++ truncation toward zero). -/
def focusMiddleRow (height vAngle : Int) : Int := Int.tdiv (vAngle * height) 180

/-- Line 128: `focusTopRow = focusMiddleRow - focusHeight / 2`. -/
def focusTopRow (height vAngle : Int) : Int :=
  focusMiddleRow height vAngle - Int.tdiv (focusHeight height) 2

/-- Line 129: `focusBottomRow = focusMiddleRow + focusHeight / 2`. -/
def focusBottomRow (height vAngle : Int) : Int :=
  focusMiddleRow height vAngle + Int.tdiv (focusHeight height) 2

/-- Line 132: `top`, rows `[0, focusTopRow)` of the focus band. -/
def top (image : Image) (angle vAngle : Int) : Image :=
  rowRange (middle image angle) 0 (focusTopRow image.rows vAngle)

/-- Line 133: `focused`, rows `[focusTopRow, focusBottomRow)` of the band. -/
def focused (image : Image) (angle vAngle : Int) : Image :=
  rowRange (middle image angle) (focusTopRow image.rows vAngle)
    (focusBottomRow image.rows vAngle)

/-- Line 134: `bottom`, rows `[focusBottomRow, middle.rows)` of the band. -/
def bottom (image : Image) (angle vAngle : Int) : Image :=
  rowRange (middle image angle) (focusBottomRow image.rows vAngle)
    (middle image angle).rows

/-- Line 140: `origVSize = top.size()`. -/
def origVSize (image : Image) (angle vAngle : Int) : Size :=
  (top image angle vAngle).size

/-- Line 141: `smallVSize = Size(top.cols / BLUR_FACTOR, top.rows / BLUR_FACTOR)`. -/
def smallVSize (image : Image) (angle vAngle : Int) : Size :=
  ⟨Int.tdiv (top image angle vAngle).cols BLUR_FACTOR,
    Int.tdiv (top image angle vAngle).rows BLUR_FACTOR⟩

/-- Line 142: `blurredTop`. -/
def blurredTop (image : Image) (angle vAngle : Int) : Image :=
  resize (top image angle vAngle) (smallVSize image angle vAngle)

/-- Line 143: `blurredBottom` (destination size again the one computed from
`top`). -/
def blurredBottom (image : Image) (angle vAngle : Int) : Image :=
  resize (bottom image angle vAngle) (smallVSize image angle vAngle)

end Opt

/-- Models `Optimizer::optimizeImage` (lines 61-153): the constructed
`OptimizedImage` record (lines 147-152). -/
def Optimizer.optimizeImage (image : Image) (angle vAngle : Int) : OptimizedImage :=
  { focused := Opt.focused image angle vAngle
    blurredLeft := Opt.blurredLeft image angle
    blurredRight := Opt.blurredRight image angle
    blurredTop := Opt.blurredTop image angle vAngle
    blurredBottom := Opt.blurredBottom image angle vAngle
    origHSize := Opt.origHSize image angle
    origVSize := Opt.origVSize image angle vAngle
    fullSize := image.size
    leftBuffer := Opt.leftCol image.cols angle }

/-- Every runtime check crossed by `optimizeImage`: the `REQUIRES` contract
(line 66), the four `ASSERT`s on the crop columns (lines 78-81), the three
`ASSERT`s on the focus columns (lines 105-107), the `cv::resize` assertions
of the four downsampling calls (lines 121-122, 142-143) and the
`CV_Assert` range checks of the vertical ROI constructors (lines 132-134).
The ROI checks of the horizontal crops are implied by the listed `ASSERT`s.
The input is a genuine image: non-negative dimensions (implied by the
resize checks; stated via them). -/
def optimizeOk (image : Image) (angle vAngle : Int) : Prop :=
  H_FOCUS_ANGLE < CROP_ANGLE ∧
  0 ≤ Opt.leftCol image.cols angle ∧ Opt.leftCol image.cols angle < image.cols ∧
  0 ≤ Opt.rightCol image.cols angle ∧ Opt.rightCol image.cols angle < image.cols ∧
  0 ≤ Opt.focusLeftCol image.cols angle ∧
  Opt.focusLeftCol image.cols angle ≤ Opt.focusRightCol image.cols angle ∧
  Opt.focusRightCol image.cols angle < Opt.croppedCols image.cols angle ∧
  resizeOk (Opt.left image angle) (Opt.smallSize image angle) ∧
  resizeOk (Opt.right image angle) (Opt.smallSize image angle) ∧
  0 ≤ Opt.focusTopRow image.rows vAngle ∧
  Opt.focusTopRow image.rows vAngle ≤ Opt.focusBottomRow image.rows vAngle ∧
  Opt.focusBottomRow image.rows vAngle ≤ image.rows ∧
  resizeOk (Opt.top image angle vAngle) (Opt.smallVSize image angle vAngle) ∧
  resizeOk (Opt.bottom image angle vAngle) (Opt.smallVSize image angle vAngle)

instance optimizeOkDecidable (image : Image) (angle vAngle : Int) :
    Decidable (optimizeOk image angle vAngle) := by
  unfold optimizeOk resizeOk
  infer_instance

namespace Ext

/-!
Locals of `Optimizer::extractImage(optImage)` (lines 155-235), as functions
of the record.
-/

/-- Line 160: `left`, the left strip upsampled back to `origHSize`. -/
def left (o : OptimizedImage) : Image := resize o.blurredLeft o.origHSize

/-- Line 161: `right`, upsampled to the same `origHSize`. -/
def right (o : OptimizedImage) : Image := resize o.blurredRight o.origHSize

/-- Line 166: `top`, upsampled to `origVSize`. -/
def top (o : OptimizedImage) : Image := resize o.blurredTop o.origVSize

/-- Line 167: `bottom`, also upsampled to `origVSize` (the recorded size of
the *top* strip). -/
def bottom (o : OptimizedImage) : Image := resize o.blurredBottom o.origVSize

/-- Lines 173-174: `middle = vconcat3(top, focused, bottom)`. -/
def middle (o : OptimizedImage) : Image := vconcat3 (top o) o.focused (bottom o)

/-- Lines 177-178: `croppedImage = hconcat3(left, middle, right)`. -/
def croppedImage (o : OptimizedImage) : Image :=
  hconcat3 (left o) (middle o) (right o)

/-- Line 190: the wrap-placement branch condition
`croppedImage.width + leftBuffer >= fullSize.width`. -/
def wraps (o : OptimizedImage) : Prop :=
  (croppedImage o).cols + o.leftBuffer ≥ o.fullSize.width

instance wrapsDecidable (o : OptimizedImage) : Decidable (wraps o) := by
  unfold wraps
  infer_instance

/-- Line 198: `rightEndExclusive = fullSize.width - leftBuffer`. -/
def rightEndExclusive (o : OptimizedImage) : Int := o.fullSize.width - o.leftBuffer

/-- Lines 200-220: the three panels placed side by side, by branch. -/
def fullLeft (o : OptimizedImage) : Image :=
  if wraps o then
    colRange (croppedImage o) (rightEndExclusive o) (croppedImage o).cols
  else
    black (croppedImage o).rows o.leftBuffer

/-- The middle panel of the final placement. -/
def fullCenter (o : OptimizedImage) : Image :=
  if wraps o then
    black (croppedImage o).rows
      (o.fullSize.width - rightEndExclusive o - ((croppedImage o).cols - rightEndExclusive o))
  else
    croppedImage o

/-- The right panel of the final placement. -/
def fullRight (o : OptimizedImage) : Image :=
  if wraps o then
    colRange (croppedImage o) 0 (rightEndExclusive o)
  else
    black (croppedImage o).rows
      (o.fullSize.width - o.leftBuffer - (croppedImage o).cols)

end Ext

/-- Models `Optimizer::extractImage` (lines 155-235): the final
`hconcat3(fullLeft, fullCenter, fullRight)` (line 228). -/
def Optimizer.extractImage (o : OptimizedImage) : Image :=
  hconcat3 (Ext.fullLeft o) (Ext.fullCenter o) (Ext.fullRight o)

/-- Every runtime check crossed by `extractImage`: the four `cv::resize`
assertions (lines 160-167), the compatibility assertions of `vconcat3`
(line 174) and `hconcat3` (line 178), and per placement branch the
`ASSERT`s of lines 199/204 resp. the `Mat` constructor and `ASSERT` of
lines 213-218 (the final `hconcat3` of line 228 is row-compatible by
construction). -/
def extractOk (o : OptimizedImage) : Prop :=
  resizeOk o.blurredLeft o.origHSize ∧
  resizeOk o.blurredRight o.origHSize ∧
  resizeOk o.blurredTop o.origVSize ∧
  resizeOk o.blurredBottom o.origVSize ∧
  vconcat3Ok (Ext.top o) o.focused (Ext.bottom o) ∧
  hconcat3Ok (Ext.left o) (Ext.middle o) (Ext.right o) ∧
  if Ext.wraps o then
    0 ≤ Ext.rightEndExclusive o ∧
    Ext.rightEndExclusive o ≤ (Ext.croppedImage o).cols ∧
    0 ≤ o.fullSize.width - Ext.rightEndExclusive o -
        ((Ext.croppedImage o).cols - Ext.rightEndExclusive o)
  else
    0 ≤ o.leftBuffer ∧
    0 ≤ o.fullSize.width - o.leftBuffer - (Ext.croppedImage o).cols

instance extractOkDecidable (o : OptimizedImage) : Decidable (extractOk o) := by
  unfold extractOk resizeOk vconcat3Ok hconcat3Ok vconcatOk hconcatOk
  infer_instance

instance hconcatOkDecidable (a b : Image) : Decidable (hconcatOk a b) := by
  unfold hconcatOk
  infer_instance

instance vconcatOkDecidable (a b : Image) : Decidable (vconcatOk a b) := by
  unfold vconcatOk
  infer_instance

/-! ### Basic lemmas about the model operations -/

theorem Image.size_width (m : Image) : m.size.width = m.cols := rfl

theorem Image.size_height (m : Image) : m.size.height = m.rows := rfl

theorem subMat_rows (m : Image) (r1 r2 c1 c2 : Int) :
    (subMat m r1 r2 c1 c2).rows = r2 - r1 := rfl

theorem subMat_cols (m : Image) (r1 r2 c1 c2 : Int) :
    (subMat m r1 r2 c1 c2).cols = c2 - c1 := rfl

theorem subMat_pix (m : Image) (r1 r2 c1 c2 r c : Int) :
    (subMat m r1 r2 c1 c2).pix r c = m.pix (r1 + r) (c1 + c) := rfl

theorem hconcat_rows (a b : Image) : (hconcat a b).rows = a.rows := rfl

theorem hconcat_cols (a b : Image) : (hconcat a b).cols = a.cols + b.cols := rfl

theorem hconcat_pix_left (a b : Image) (r c : Int) (h : c < a.cols) :
    (hconcat a b).pix r c = a.pix r c := if_pos h

theorem hconcat_pix_right (a b : Image) (r c : Int) (h : ¬c < a.cols) :
    (hconcat a b).pix r c = b.pix r (c - a.cols) := if_neg h

theorem vconcat_rows (a b : Image) : (vconcat a b).rows = a.rows + b.rows := rfl

theorem vconcat_cols (a b : Image) : (vconcat a b).cols = a.cols := rfl

theorem vconcat_pix_top (a b : Image) (r c : Int) (h : r < a.rows) :
    (vconcat a b).pix r c = a.pix r c := if_pos h

theorem vconcat_pix_bottom (a b : Image) (r c : Int) (h : ¬r < a.rows) :
    (vconcat a b).pix r c = b.pix (r - a.rows) c := if_neg h

theorem resize_rows (src : Image) (d : Size) : (resize src d).rows = d.height := rfl

theorem resize_cols (src : Image) (d : Size) : (resize src d).cols = d.width := rfl

theorem colRange_cols (m : Image) (c1 c2 : Int) : (colRange m c1 c2).cols = c2 - c1 := by
  unfold colRange
  rw [subMat_cols]

theorem colRange_rows (m : Image) (c1 c2 : Int) : (colRange m c1 c2).rows = m.rows := by
  unfold colRange
  rw [subMat_rows]
  ring

theorem colRange_pix (m : Image) (c1 c2 r c : Int) :
    (colRange m c1 c2).pix r c = m.pix r (c1 + c) := by
  unfold colRange
  rw [subMat_pix]
  simp only [zero_add]

theorem rowRange_pix (m : Image) (r1 r2 r c : Int) :
    (rowRange m r1 r2).pix r c = m.pix (r1 + r) c := by
  unfold rowRange
  rw [subMat_pix]
  simp only [zero_add]

theorem black_rows (rows cols : Int) : (black rows cols).rows = rows := rfl

theorem black_cols (rows cols : Int) : (black rows cols).cols = cols := rfl

/-- Truncating remainder of a negated argument. -/
theorem neg_tmod_left (a b : Int) : (-a).tmod b = -(a.tmod b) := by
  rw [Int.tmod_def, Int.tmod_def, Int.neg_tdiv]
  ring

/-- The `int` `constrainAngle` agrees with the mathematical (Euclidean)
remainder mod 360. -/
theorem constrainAngle_eq_emod (x : Int) : constrainAngle x = x % 360 := by
  unfold constrainAngle
  rcases le_or_lt 0 x with h | h
  · rw [Int.tmod_eq_emod h (by norm_num)]
    have h1 := Int.emod_nonneg x (show (360 : Int) ≠ 0 by norm_num)
    rw [if_neg (not_lt.mpr h1)]
  · have h1 : x = -(-x) := by ring
    have h2 : x.tmod 360 = -((-x).tmod 360) := by
      conv_lhs => rw [h1, neg_tmod_left]
    have h3 : (-x).tmod 360 = (-x) % 360 := Int.tmod_eq_emod (by omega) (by norm_num)
    rw [h2, h3]
    have h4 := Int.emod_nonneg (-x) (show (360 : Int) ≠ 0 by norm_num)
    have h5 := Int.emod_lt_of_pos (-x) (show (0 : Int) < 360 by norm_num)
    have h6 := Int.emod_nonneg x (show (360 : Int) ≠ 0 by norm_num)
    have h7 := Int.emod_lt_of_pos x (show (0 : Int) < 360 by norm_num)
    split <;> omega

theorem constrainAngle_nonneg (x : Int) : 0 ≤ constrainAngle x := by
  rw [constrainAngle_eq_emod]
  exact Int.emod_nonneg x (by norm_num)

theorem constrainAngle_lt (x : Int) : constrainAngle x < 360 := by
  rw [constrainAngle_eq_emod]
  exact Int.emod_lt_of_pos x (by norm_num)

/-- Range of the exact-rational `fmod` by 360. -/
theorem fmod360_bounds (q : ℚ) :
    (0 ≤ q → 0 ≤ fmod q 360 ∧ fmod q 360 < 360) ∧
      (q < 0 → -360 < fmod q 360 ∧ fmod q 360 ≤ 0) := by
  unfold fmod ratTrunc
  constructor
  · intro h0
    have hq : ¬q / 360 < 0 := not_lt.mpr (by positivity)
    rw [if_neg hq]
    have h1 := Int.floor_le (q / 360)
    have h2 := Int.lt_floor_add_one (q / 360)
    constructor
    · nlinarith [h1]
    · nlinarith [h2]
  · intro h0
    have hq : q / 360 < 0 := by
      have : (0 : ℚ) < 360 := by norm_num
      exact div_neg_of_neg_of_pos h0 this
    rw [if_pos hq]
    have h1 := Int.le_ceil (q / 360)
    have h2 := Int.ceil_lt_add_one (q / 360)
    constructor
    · nlinarith [h2]
    · nlinarith [h1]

theorem constrainAngleReal_nonneg (q : ℚ) : 0 ≤ constrainAngleReal q := by
  unfold constrainAngleReal
  have h := fmod360_bounds q
  rcases lt_or_le q 0 with h0 | h0
  · have h1 := h.2 h0
    split <;> linarith [h1.1, h1.2]
  · have h1 := h.1 h0
    split <;> linarith [h1.1, h1.2]

theorem constrainAngleReal_lt (q : ℚ) : constrainAngleReal q < 360 := by
  unfold constrainAngleReal
  have h := fmod360_bounds q
  rcases lt_or_le q 0 with h0 | h0
  · have h1 := h.2 h0
    split_ifs with h2
    · linarith [h1.1]
    · linarith [h1.2]
  · have h1 := h.1 h0
    split_ifs with h2
    · linarith [h1.1]
    · linarith [h1.2]

/-- Inputs already inside `[0, 360)` are fixed points of the rational
`constrainAngle`. -/
theorem constrainAngleReal_fix {q : ℚ} (h0 : 0 ≤ q) (h1 : q < 360) :
    constrainAngleReal q = q := by
  unfold constrainAngleReal fmod ratTrunc
  have hq : ¬q / 360 < 0 := not_lt.mpr (by positivity)
  rw [if_neg hq]
  have hfl : ⌊q / 360⌋ = 0 := by
    rw [Int.floor_eq_zero_iff]
    constructor
    · positivity
    · rw [div_lt_one (by norm_num : (0:ℚ) < 360)]
      exact h1
  rw [hfl]
  simp only [Int.cast_zero, mul_zero, sub_zero]
  rw [if_neg (not_lt.mpr h0)]

/-! ### Size algebra of the encoder locals -/

namespace Opt

theorem cropped_rows (image : Image) (angle : Int) :
    (cropped image angle).rows = image.rows := by
  unfold cropped
  split <;> simp [colRange, hconcat, subMat]

theorem cropped_cols (image : Image) (angle : Int) :
    (cropped image angle).cols = croppedCols image.cols angle := by
  unfold cropped croppedCols
  split <;> simp [colRange, hconcat, subMat]

theorem middle_rows (image : Image) (angle : Int) :
    (middle image angle).rows = image.rows := by
  unfold middle
  rw [colRange, subMat_rows, cropped_rows]
  ring

theorem middle_cols (image : Image) (angle : Int) :
    (middle image angle).cols =
      focusRightCol image.cols angle - focusLeftCol image.cols angle := rfl

theorem left_rows (image : Image) (angle : Int) :
    (left image angle).rows = image.rows := by
  unfold left
  rw [colRange, subMat_rows, cropped_rows]
  ring

theorem left_cols (image : Image) (angle : Int) :
    (left image angle).cols = focusLeftCol image.cols angle := by
  unfold left
  rw [colRange, subMat_cols]
  ring

theorem right_rows (image : Image) (angle : Int) :
    (right image angle).rows = image.rows := by
  unfold right
  rw [colRange, subMat_rows, cropped_rows]
  ring

theorem right_cols (image : Image) (angle : Int) :
    (right image angle).cols =
      croppedCols image.cols angle - focusRightCol image.cols angle := by
  unfold right
  rw [colRange, subMat_cols, cropped_cols]

theorem top_rows (image : Image) (angle vAngle : Int) :
    (top image angle vAngle).rows = focusTopRow image.rows vAngle := by
  unfold top
  rw [rowRange, subMat_rows]
  ring

theorem top_cols (image : Image) (angle vAngle : Int) :
    (top image angle vAngle).cols =
      focusRightCol image.cols angle - focusLeftCol image.cols angle := by
  unfold top
  rw [rowRange, subMat_cols, middle_cols]
  ring

theorem focused_rows (image : Image) (angle vAngle : Int) :
    (focused image angle vAngle).rows =
      focusBottomRow image.rows vAngle - focusTopRow image.rows vAngle := rfl

theorem focused_cols (image : Image) (angle vAngle : Int) :
    (focused image angle vAngle).cols =
      focusRightCol image.cols angle - focusLeftCol image.cols angle := by
  unfold focused
  rw [rowRange, subMat_cols, middle_cols]
  ring

theorem bottom_rows (image : Image) (angle vAngle : Int) :
    (bottom image angle vAngle).rows =
      image.rows - focusBottomRow image.rows vAngle := by
  unfold bottom
  rw [rowRange, subMat_rows, middle_rows]

theorem bottom_cols (image : Image) (angle vAngle : Int) :
    (bottom image angle vAngle).cols =
      focusRightCol image.cols angle - focusLeftCol image.cols angle := by
  unfold bottom
  rw [rowRange, subMat_cols, middle_cols]
  ring

theorem origHSize_eq (image : Image) (angle : Int) :
    origHSize image angle = ⟨focusLeftCol image.cols angle, image.rows⟩ := by
  unfold origHSize Image.size
  rw [left_cols, left_rows]

theorem blurredLeft_rows (image : Image) (angle : Int) :
    (blurredLeft image angle).rows = (smallSize image angle).height := rfl

theorem blurredLeft_cols (image : Image) (angle : Int) :
    (blurredLeft image angle).cols = (smallSize image angle).width := rfl

theorem blurredRight_rows (image : Image) (angle : Int) :
    (blurredRight image angle).rows = (smallSize image angle).height := rfl

theorem blurredRight_cols (image : Image) (angle : Int) :
    (blurredRight image angle).cols = (smallSize image angle).width := rfl

theorem blurredTop_rows (image : Image) (angle vAngle : Int) :
    (blurredTop image angle vAngle).rows = (smallVSize image angle vAngle).height := rfl

theorem blurredTop_cols (image : Image) (angle vAngle : Int) :
    (blurredTop image angle vAngle).cols = (smallVSize image angle vAngle).width := rfl

theorem blurredBottom_rows (image : Image) (angle vAngle : Int) :
    (blurredBottom image angle vAngle).rows =
      (smallVSize image angle vAngle).height := rfl

theorem blurredBottom_cols (image : Image) (angle vAngle : Int) :
    (blurredBottom image angle vAngle).cols =
      (smallVSize image angle vAngle).width := rfl

theorem origVSize_eq (image : Image) (angle vAngle : Int) :
    origVSize image angle vAngle =
      ⟨focusRightCol image.cols angle - focusLeftCol image.cols angle,
        focusTopRow image.rows vAngle⟩ := by
  unfold origVSize Image.size
  rw [top_cols, top_rows]

end Opt

/-! ### Record fields of the encoder's output -/

theorem optimizeImage_focused (image : Image) (angle vAngle : Int) :
    (Optimizer.optimizeImage image angle vAngle).focused =
      Opt.focused image angle vAngle := rfl

theorem optimizeImage_blurredLeft (image : Image) (angle vAngle : Int) :
    (Optimizer.optimizeImage image angle vAngle).blurredLeft =
      Opt.blurredLeft image angle := rfl

theorem optimizeImage_blurredRight (image : Image) (angle vAngle : Int) :
    (Optimizer.optimizeImage image angle vAngle).blurredRight =
      Opt.blurredRight image angle := rfl

theorem optimizeImage_blurredTop (image : Image) (angle vAngle : Int) :
    (Optimizer.optimizeImage image angle vAngle).blurredTop =
      Opt.blurredTop image angle vAngle := rfl

theorem optimizeImage_blurredBottom (image : Image) (angle vAngle : Int) :
    (Optimizer.optimizeImage image angle vAngle).blurredBottom =
      Opt.blurredBottom image angle vAngle := rfl

theorem optimizeImage_origHSize (image : Image) (angle vAngle : Int) :
    (Optimizer.optimizeImage image angle vAngle).origHSize =
      Opt.origHSize image angle := rfl

theorem optimizeImage_origVSize (image : Image) (angle vAngle : Int) :
    (Optimizer.optimizeImage image angle vAngle).origVSize =
      Opt.origVSize image angle vAngle := rfl

theorem optimizeImage_fullSize (image : Image) (angle vAngle : Int) :
    (Optimizer.optimizeImage image angle vAngle).fullSize = image.size := rfl

theorem optimizeImage_leftBuffer (image : Image) (angle vAngle : Int) :
    (Optimizer.optimizeImage image angle vAngle).leftBuffer =
      Opt.leftCol image.cols angle := rfl

/-! ### Bridging the truncating column arithmetic to Euclidean division -/

theorem Opt.leftAngle_nonneg (angle : Int) : 0 ≤ Opt.leftAngle angle :=
  constrainAngle_nonneg _

theorem Opt.leftAngle_lt (angle : Int) : Opt.leftAngle angle < 360 :=
  constrainAngle_lt _

theorem Opt.rightAngle_nonneg (angle : Int) : 0 ≤ Opt.rightAngle angle :=
  constrainAngle_nonneg _

theorem Opt.rightAngle_lt (angle : Int) : Opt.rightAngle angle < 360 :=
  constrainAngle_lt _

/-- On non-negative widths the truncating `leftCol` is the floor quotient. -/
theorem Opt.leftCol_eq (w angle : Int) (hw : 0 ≤ w) :
    Opt.leftCol w angle = Opt.leftAngle angle * w / 360 := by
  unfold Opt.leftCol
  exact Int.tdiv_eq_ediv (mul_nonneg (Opt.leftAngle_nonneg angle) hw) (by norm_num)

/-- On non-negative widths the truncating `rightCol` is the floor quotient. -/
theorem Opt.rightCol_eq (w angle : Int) (hw : 0 ≤ w) :
    Opt.rightCol w angle = Opt.rightAngle angle * w / 360 := by
  unfold Opt.rightCol
  exact Int.tdiv_eq_ediv (mul_nonneg (Opt.rightAngle_nonneg angle) hw) (by norm_num)

/-- Strict floor-quotient step: numerators at least one divisor apart have
strictly increasing quotients. -/
theorem ediv_lt_of_add_le {x y n : Int} (hn : 0 < n) (h : x + n ≤ y) :
    x / n < y / n := by
  have h2 : (x + n) / n ≤ y / n := Int.ediv_le_ediv hn h
  have h3 : (x + n) / n = x / n + 1 := by
    have h4 := Int.add_mul_ediv_right x 1 (show n ≠ 0 by omega)
    simpa using h4
  omega

/-- Superadditivity of the floor quotient. -/
theorem ediv_add_ediv_le {x y : Int} (n : Int) (hn : 0 < n) :
    x / n + y / n ≤ (x + y) / n := by
  rw [Int.le_ediv_iff_mul_le hn, add_mul]
  have h1 := Int.ediv_mul_le x (show n ≠ 0 by omega)
  have h2 := Int.ediv_mul_le y (show n ≠ 0 by omega)
  omega

/-- The floor quotient of a sum exceeds the sum of quotients by at most one. -/
theorem add_ediv_le_add_one {x y : Int} (n : Int) (hn : 0 < n) :
    (x + y) / n ≤ x / n + y / n + 1 := by
  have hlt : (x + y) / n < x / n + y / n + 2 := by
    rw [Int.ediv_lt_iff_lt_mul hn]
    have h1 := Int.lt_ediv_add_one_mul_self x hn
    have h2 := Int.lt_ediv_add_one_mul_self y hn
    nlinarith
  omega

/-- Product of floor quotients is at most the quotient of products. -/
theorem ediv_mul_ediv_le {a c : Int} (b d : Int) (ha : 0 ≤ a) (hc : 0 ≤ c)
    (hb : 0 < b) (hd : 0 < d) : (a / b) * (c / d) ≤ (a * c) / (b * d) := by
  rw [Int.le_ediv_iff_mul_le (by positivity)]
  have h1 := Int.ediv_mul_le a (show b ≠ 0 by omega)
  have h2 := Int.ediv_mul_le c (show d ≠ 0 by omega)
  have h3 : 0 ≤ a / b := Int.ediv_nonneg ha (by omega)
  have h4 : 0 ≤ c / d := Int.ediv_nonneg hc (by omega)
  calc a / b * (c / d) * (b * d) = (a / b * b) * (c / d * d) := by ring
    _ ≤ a * (c / d * d) := by
        have h5 : 0 ≤ c / d * d := by positivity
        exact mul_le_mul_of_nonneg_right h1 h5
    _ ≤ a * c := mul_le_mul_of_nonneg_left h2 ha

/-- Floor division by a positive product, one factor at a time. -/
theorem ediv_ediv (a b c : Int) (hb : 0 < b) (hc : 0 < c) :
    a / b / c = a / (b * c) := by
  have hbc : 0 < b * c := by positivity
  apply le_antisymm
  · rw [Int.le_ediv_iff_mul_le hbc]
    have h1 : a / b / c * c ≤ a / b := Int.ediv_mul_le _ (by omega)
    have h2 : a / b * b ≤ a := Int.ediv_mul_le _ (by omega)
    calc a / b / c * (b * c) = a / b / c * c * b := by ring
      _ ≤ a / b * b := mul_le_mul_of_nonneg_right h1 (by omega)
      _ ≤ a := h2
  · rw [Int.le_ediv_iff_mul_le hc, Int.le_ediv_iff_mul_le hb]
    have h3 : a / (b * c) * (b * c) ≤ a := Int.ediv_mul_le _ (by omega)
    calc a / (b * c) * c * b = a / (b * c) * (b * c) := by ring
      _ ≤ a := h3

/-- Concrete test frame with deterministic pixel content. -/
def testImage (rows cols : Int) : Image := ⟨rows, cols, fun r c => r * 10000 + c⟩

/-- A full-scale source frame: 3600 x 1800, the spec's example geometry. -/
def frameA : Image := testImage 1800 3600

/-! ### Claim C5 -/

/-- C5 counterexample: at the representable double `-2 ^ (-50)` (about
`-8.9e-16`) the compiled double overload returns exactly `360.0`:
`fmod` leaves the input unchanged (its magnitude is below 360), the
sign correction computes `360 - 2 ^ (-50)`, and the nearest binary64
value to that sum is `360` itself, because doubles are spaced
`2 ^ (-44)` apart at 360.  The result lies outside the claimed range
`[0, 360)`, and applying the function to its own output gives `0`, so
the overload is not idempotent there either. -/
theorem C5_counterexample_ieee_boundary :
    constrainAngleDouble (-(1 / 2 ^ 50)) = 360 ∧
      ¬constrainAngleDouble (-(1 / 2 ^ 50)) < 360 ∧
      constrainAngleDouble (constrainAngleDouble (-(1 / 2 ^ 50))) = 0 := by
  have hfm : fmod (-(1 / 2 ^ 50) : ℚ) 360 = -(1 / 2 ^ 50) := by
    unfold fmod ratTrunc
    have h1 : (-(1 / 2 ^ 50) : ℚ) / 360 < 0 := by norm_num
    rw [if_pos h1]
    have h2 : ⌈(-(1 / 2 ^ 50) : ℚ) / 360⌉ = 0 := by
      rw [Int.ceil_eq_zero_iff, Set.mem_Ioc]
      norm_num
    rw [h2]
    norm_num
  have hlog : Int.log 2 |(360 - 1 / 2 ^ 50 : ℚ)| = 8 := by
    have habs : |(360 - 1 / 2 ^ 50 : ℚ)| = 360 - 1 / 2 ^ 50 := abs_of_pos (by norm_num)
    rw [habs]
    have hpos : (0 : ℚ) < 360 - 1 / 2 ^ 50 := by norm_num
    have h1 : ((2 : ℕ) : ℚ) ^ (8 : ℤ) ≤ 360 - 1 / 2 ^ 50 := by norm_num
    have h2 : (360 - 1 / 2 ^ 50 : ℚ) < ((2 : ℕ) : ℚ) ^ ((8 : ℤ) + 1) := by norm_num
    have h3 := (Int.zpow_le_iff_le_log (by norm_num) hpos).mp h1
    have h4 := (Int.lt_zpow_iff_log_lt (by norm_num) hpos).mp h2
    omega
  have hr64 : roundB64 (360 - 1 / 2 ^ 50) = 360 := by
    unfold roundB64
    rw [if_neg (by norm_num : ¬(360 - 1 / 2 ^ 50 : ℚ) = 0), hlog,
      show (8 : ℤ) - 52 = -44 by norm_num]
    have hscale : (360 - 1 / 2 ^ 50 : ℚ) / 2 ^ (-44 : ℤ) = 360 * 2 ^ 44 - 1 / 2 ^ 6 := by
      rw [zpow_neg, div_eq_mul_inv, inv_inv]
      norm_num
    rw [hscale]
    have hfloor : ⌊(360 * 2 ^ 44 - 1 / 2 ^ 6 : ℚ)⌋ = 360 * 2 ^ 44 - 1 := by
      rw [Int.floor_eq_iff]
      constructor
      · push_cast
        norm_num
      · push_cast
        norm_num
    unfold rnEven
    rw [hfloor]
    rw [if_neg (by push_cast; norm_num), if_pos (by push_cast; norm_num)]
    push_cast
    rw [zpow_neg]
    norm_num
  have hmain : constrainAngleDouble (-(1 / 2 ^ 50)) = 360 := by
    unfold constrainAngleDouble
    rw [hfm, if_pos (by norm_num : (-(1 / 2 ^ 50) : ℚ) < 0),
      show (-(1 / 2 ^ 50) : ℚ) + 360 = 360 - 1 / 2 ^ 50 by ring, hr64]
  refine ⟨hmain, by rw [hmain]; norm_num, ?_⟩
  rw [hmain]
  unfold constrainAngleDouble
  have hfm360 : fmod (360 : ℚ) 360 = 0 := by
    unfold fmod ratTrunc
    rw [if_neg (by norm_num : ¬(360 : ℚ) / 360 < 0),
      show (360 : ℚ) / 360 = 1 by norm_num]
    norm_num
  rw [hfm360, if_neg (by norm_num : ¬(0 : ℚ) < 0)]

/-- C5 amended: the `int` overload maps every integer into `[0, 360)`
and is idempotent, and the real-valued overload does the same in exact
real arithmetic; the compiled double overload, however, can return
exactly 360 and fail idempotence, because the sign-correcting addition
rounds (see the counterexample above). -/
theorem C5_constrainAngle_range_idempotent :
    (∀ x : Int, 0 ≤ constrainAngle x ∧ constrainAngle x < 360 ∧
      constrainAngle (constrainAngle x) = constrainAngle x) ∧
    (∀ q : ℚ, 0 ≤ constrainAngleReal q ∧ constrainAngleReal q < 360 ∧
      constrainAngleReal (constrainAngleReal q) = constrainAngleReal q) := by
  constructor
  · intro x
    refine ⟨constrainAngle_nonneg x, constrainAngle_lt x, ?_⟩
    rw [constrainAngle_eq_emod (constrainAngle x), constrainAngle_eq_emod x]
    have h1 := Int.emod_nonneg x (show (360 : Int) ≠ 0 by norm_num)
    have h2 := Int.emod_lt_of_pos x (show (0 : Int) < 360 by norm_num)
    omega
  · intro q
    exact ⟨constrainAngleReal_nonneg q, constrainAngleReal_lt q,
      constrainAngleReal_fix (constrainAngleReal_nonneg q) (constrainAngleReal_lt q)⟩

/-! ### Claim C3 -/

/-- C3: at azimuth 0 the crop window is `[300, 360) ∪ [0, 60)` and the
seam-wraparound branch fires (`rightCol < leftCol`, concatenating the
`[leftCol, width)` and `[0, rightCol)` column ranges in that order); at
azimuth 180 the window `[120, 240)` is interior, `leftCol < rightCol`,
and the single contiguous crop is taken.  Width at least 2 keeps the two
pixel columns distinct. -/
theorem C3_seam_wrap_vs_contiguous (image : Image) (h2 : 2 ≤ image.cols) :
    Opt.leftAngle 0 = 300 ∧ Opt.rightAngle 0 = 60 ∧
    Opt.rightCol image.cols 0 < Opt.leftCol image.cols 0 ∧
    Opt.cropped image 0 =
      hconcat (colRange image (Opt.leftCol image.cols 0) image.cols)
        (colRange image 0 (Opt.rightCol image.cols 0)) ∧
    Opt.leftAngle 180 = 120 ∧ Opt.rightAngle 180 = 240 ∧
    Opt.leftCol image.cols 180 < Opt.rightCol image.cols 180 ∧
    Opt.cropped image 180 =
      colRange image (Opt.leftCol image.cols 180) (Opt.rightCol image.cols 180) := by
  have hw : (0 : Int) ≤ image.cols := by omega
  have la0 : Opt.leftAngle 0 = 300 := by decide
  have ra0 : Opt.rightAngle 0 = 60 := by decide
  have la180 : Opt.leftAngle 180 = 120 := by decide
  have ra180 : Opt.rightAngle 180 = 240 := by decide
  have hl0 : Opt.leftCol image.cols 0 = 300 * image.cols / 360 := by
    rw [Opt.leftCol_eq image.cols 0 hw, la0]
  have hr0 : Opt.rightCol image.cols 0 = 60 * image.cols / 360 := by
    rw [Opt.rightCol_eq image.cols 0 hw, ra0]
  have hl180 : Opt.leftCol image.cols 180 = 120 * image.cols / 360 := by
    rw [Opt.leftCol_eq image.cols 180 hw, la180]
  have hr180 : Opt.rightCol image.cols 180 = 240 * image.cols / 360 := by
    rw [Opt.rightCol_eq image.cols 180 hw, ra180]
  have hwrap : Opt.rightCol image.cols 0 < Opt.leftCol image.cols 0 := by
    rw [hl0, hr0]
    exact ediv_lt_of_add_le (by norm_num) (by omega)
  have hcont : Opt.leftCol image.cols 180 < Opt.rightCol image.cols 180 := by
    rw [hl180, hr180]
    rcases (by omega : image.cols = 2 ∨ 3 ≤ image.cols) with hc | hc
    · rw [hc]
      norm_num
    · exact ediv_lt_of_add_le (by norm_num) (by omega)
  refine ⟨la0, ra0, hwrap, ?_, la180, ra180, hcont, ?_⟩
  · unfold Opt.cropped
    rw [if_neg (by omega)]
  · unfold Opt.cropped
    rw [if_pos hcont]

/-- C3 witness input: the 3600-wide frame. -/
theorem C3_seam_wrap_vs_contiguous_witness :
    (2 ≤ frameA.cols) ∧
      (Opt.rightCol frameA.cols 0 < Opt.leftCol frameA.cols 0 ∧
        Opt.leftCol frameA.cols 180 < Opt.rightCol frameA.cols 180) := by
  refine ⟨by decide, ?_⟩
  have h := C3_seam_wrap_vs_contiguous frameA (by decide)
  exact ⟨h.2.2.1, h.2.2.2.2.2.2.1⟩

/-! ### Claim C9 -/

/-- Closed form of `leftAngle` on the normalized azimuth. -/
theorem leftAngle_eq (angle : Int) :
    Opt.leftAngle angle =
      if constrainAngle angle < 60 then constrainAngle angle + 300
      else constrainAngle angle - 60 := by
  unfold Opt.leftAngle
  have h1 : CROP_ANGLE / 2 = (60 : Int) := by norm_num [CROP_ANGLE]
  rw [h1, constrainAngle_eq_emod]
  have h2 := constrainAngle_nonneg angle
  have h3 := constrainAngle_lt angle
  split <;> omega

/-- Closed form of `rightAngle` on the normalized azimuth. -/
theorem rightAngle_eq (angle : Int) :
    Opt.rightAngle angle =
      if constrainAngle angle < 300 then constrainAngle angle + 60
      else constrainAngle angle - 300 := by
  unfold Opt.rightAngle
  have h1 : CROP_ANGLE / 2 = (60 : Int) := by norm_num [CROP_ANGLE]
  rw [h1, constrainAngle_eq_emod]
  have h2 := constrainAngle_nonneg angle
  have h3 := constrainAngle_lt angle
  split <;> omega

/-- Width bounds for a seam-wrapping crop: the left angle's numerator is
the right angle's plus `240 * w`. -/
theorem crop_wrap_bounds (w T : Int) (hw : 3 ≤ w) :
    T / 360 ≤ (T + 240 * w) / 360 ∧
    120 * w / 360 - 1 ≤ w - (T + 240 * w) / 360 + T / 360 ∧
    w - (T + 240 * w) / 360 + T / 360 ≤ 120 * w / 360 + 1 := by
  have h1 := ediv_add_ediv_le (x := T) (y := 240 * w) 360 (by norm_num)
  have h2 := add_ediv_le_add_one (x := T) (y := 240 * w) 360 (by norm_num)
  have h3 := ediv_add_ediv_le (x := 120 * w) (y := 240 * w) 360 (by norm_num)
  have h4 := add_ediv_le_add_one (x := 120 * w) (y := 240 * w) 360 (by norm_num)
  have h5 : (120 * w + 240 * w) / 360 = w := by
    have h6 : 120 * w + 240 * w = w * 360 := by ring
    rw [h6, Int.mul_ediv_cancel _ (by norm_num)]
  rw [h5] at h3 h4
  omega

/-- Width bounds for a contiguous crop: the right angle's numerator is the
left angle's plus `120 * w`. -/
theorem crop_cont_bounds (w X : Int) (hw : 3 ≤ w) :
    X / 360 < (X + 120 * w) / 360 ∧
    120 * w / 360 - 1 ≤ (X + 120 * w) / 360 - X / 360 ∧
    (X + 120 * w) / 360 - X / 360 ≤ 120 * w / 360 + 1 := by
  have h1 := ediv_add_ediv_le (x := X) (y := 120 * w) 360 (by norm_num)
  have h2 := add_ediv_le_add_one (x := X) (y := 120 * w) 360 (by norm_num)
  have hq : 1 ≤ 120 * w / 360 := by omega
  omega

/-- C9: in both crop branches, the crop's column count is the angular width
`CROP_ANGLE` converted to pixels, up to one column of truncation error.
Widths below 3 pixels cannot represent the 120-degree window at all (and
are far below what the encoder's own resize checks admit). -/
theorem C9_crop_angular_width (image : Image) (angle : Int) (h3 : 3 ≤ image.cols) :
    CROP_ANGLE * image.cols / 360 - 1 ≤ Opt.croppedCols image.cols angle ∧
      Opt.croppedCols image.cols angle ≤ CROP_ANGLE * image.cols / 360 + 1 := by
  have hw : (0 : Int) ≤ image.cols := by omega
  have h0 := constrainAngle_nonneg angle
  have h1 := constrainAngle_lt angle
  have hCA : CROP_ANGLE = (120 : Int) := rfl
  have hlc := Opt.leftCol_eq image.cols angle hw
  have hrc := Opt.rightCol_eq image.cols angle hw
  unfold Opt.croppedCols
  rw [hCA, hlc, hrc]
  rcases (by omega : constrainAngle angle < 60 ∨
      (60 ≤ constrainAngle angle ∧ constrainAngle angle < 300) ∨
      300 ≤ constrainAngle angle) with hA | hA | hA
  · have hla1 : Opt.leftAngle angle = constrainAngle angle + 300 := by
      rw [leftAngle_eq, if_pos hA]
    have hra1 : Opt.rightAngle angle = constrainAngle angle + 60 := by
      rw [rightAngle_eq, if_pos (show constrainAngle angle < 300 by omega)]
    have e1 : (constrainAngle angle + 300) * image.cols =
        (constrainAngle angle + 60) * image.cols + 240 * image.cols := by ring
    rw [hla1, hra1, e1]
    have hb := crop_wrap_bounds image.cols ((constrainAngle angle + 60) * image.cols) h3
    rw [if_neg (not_lt.mpr hb.1)]
    exact ⟨hb.2.1, hb.2.2⟩
  · have hla1 : Opt.leftAngle angle = constrainAngle angle - 60 := by
      rw [leftAngle_eq, if_neg (show ¬constrainAngle angle < 60 by omega)]
    have hra1 : Opt.rightAngle angle = constrainAngle angle + 60 := by
      rw [rightAngle_eq, if_pos (show constrainAngle angle < 300 by omega)]
    have e1 : (constrainAngle angle + 60) * image.cols =
        (constrainAngle angle - 60) * image.cols + 120 * image.cols := by ring
    rw [hla1, hra1, e1]
    have hb := crop_cont_bounds image.cols ((constrainAngle angle - 60) * image.cols) h3
    rw [if_pos hb.1]
    exact ⟨hb.2.1, hb.2.2⟩
  · have hla1 : Opt.leftAngle angle = constrainAngle angle - 60 := by
      rw [leftAngle_eq, if_neg (show ¬constrainAngle angle < 60 by omega)]
    have hra1 : Opt.rightAngle angle = constrainAngle angle - 300 := by
      rw [rightAngle_eq, if_neg (show ¬constrainAngle angle < 300 by omega)]
    have e1 : (constrainAngle angle - 60) * image.cols =
        (constrainAngle angle - 300) * image.cols + 240 * image.cols := by ring
    rw [hla1, hra1, e1]
    have hb := crop_wrap_bounds image.cols ((constrainAngle angle - 300) * image.cols) h3
    rw [if_neg (not_lt.mpr hb.1)]
    exact ⟨hb.2.1, hb.2.2⟩

/-- C9 witness input: the 3600-wide frame at azimuth 77. -/
theorem C9_crop_angular_width_witness :
    (3 ≤ frameA.cols) ∧
      (CROP_ANGLE * frameA.cols / 360 - 1 ≤ Opt.croppedCols frameA.cols 77 ∧
        Opt.croppedCols frameA.cols 77 ≤ CROP_ANGLE * frameA.cols / 360 + 1) :=
  ⟨by decide, C9_crop_angular_width frameA 77 (by decide)⟩

/-! ### Claim C4 -/

/-- C4: near the poles the vertical focus band leaves the valid row range
of the crop: at elevation 0 the computed `focusTopRow` is negative (and
it is used, unclamped, as the row index splitting the band -- the `top`
panel's extent and the `focused` panel's first row are exactly this raw
value), and at elevation 185 the computed `focusBottomRow` exceeds
`middle.rows`; in either case no clamping happens in `optimizeImage` and
the run only stops at OpenCV's ROI range assertion (`optimizeOk` fails). -/
theorem C4_vertical_band_unclamped :
    (Opt.focusTopRow frameA.rows 0 < 0 ∧
      (Opt.top frameA 0 0).rows = Opt.focusTopRow frameA.rows 0 ∧
      (Opt.focused frameA 0 0).pix 0 0 =
        (Opt.middle frameA 0).pix (Opt.focusTopRow frameA.rows 0) 0 ∧
      ¬optimizeOk frameA 0 0) ∧
    ((Opt.middle frameA 0).rows < Opt.focusBottomRow frameA.rows 185 ∧
      ¬optimizeOk frameA 0 185) := by
  constructor
  · exact ⟨by decide, by decide, by decide, by decide⟩
  · exact ⟨by decide, by decide⟩

/-! ### Claims C7 and C8 -/

theorem resize_size (src : Image) (d : Size) : (resize src d).size = d := rfl

/-- A frame whose 120-degree crop is an odd 37 columns wide: 111 x 180. -/
def frameOddCrop : Image := testImage 180 111

/-- A frame too shallow for the vertical focus band: 360 x 9. -/
def frameShallow : Image := testImage 9 360

/-- C7 counterexample: on the 111-wide frame at azimuth 180 and elevation
90 the encoder's checks all pass, yet the right strip's pre-downsampling
size is not `origHSize` (it is one column wider than the left strip), and
decoding resizes the right strip to `origHSize`, which is not the right
strip's own original size. -/
theorem C7_counterexample_odd_crop :
    optimizeOk frameOddCrop 180 90 ∧
      (Opt.right frameOddCrop 180).size ≠
        (Optimizer.optimizeImage frameOddCrop 180 90).origHSize ∧
      (Ext.right (Optimizer.optimizeImage frameOddCrop 180 90)).size ≠
        (Opt.right frameOddCrop 180).size := by
  refine ⟨by decide, by decide, by decide⟩

/-- C7 amended: `origHSize` records the *left* strip's pre-downsampling
size; the right strip has the same height, but its width exceeds the
left's by the crop width's parity (one extra column when the crop is an
odd number of columns wide).  Decoding upsamples *both* strips to
`origHSize`, so the left strip's size is always restored and the right
strip's own size is restored exactly when the crop width is even. -/
theorem C7_origHSize_is_left_strip (image : Image) (angle vAngle : Int)
    (hok : optimizeOk image angle vAngle) :
    (Optimizer.optimizeImage image angle vAngle).origHSize =
        (Opt.left image angle).size ∧
    (Opt.right image angle).size.height = (Opt.left image angle).size.height ∧
    (Opt.right image angle).size.width =
        (Opt.left image angle).size.width + Opt.croppedCols image.cols angle % 2 ∧
    (Ext.left (Optimizer.optimizeImage image angle vAngle)).size =
        (Opt.left image angle).size ∧
    (Ext.right (Optimizer.optimizeImage image angle vAngle)).size =
        (Opt.left image angle).size := by
  obtain ⟨-, hlc0, hlcw, hrc0, hrcw, hfl0, hflr, hfrc, -, -, -, -, -, -, -⟩ := hok
  have hcc : 0 ≤ Opt.croppedCols image.cols angle := by omega
  refine ⟨rfl, ?_, ?_, ?_, ?_⟩
  · rw [Image.size_height, Image.size_height, Opt.right_rows, Opt.left_rows]
  · rw [Image.size_width, Image.size_width, Opt.right_cols, Opt.left_cols]
    have h1 : Opt.focusRightCol image.cols angle + Opt.focusLeftCol image.cols angle =
        2 * Int.tdiv (Opt.croppedCols image.cols angle) 2 := by
      unfold Opt.focusRightCol Opt.focusLeftCol
      ring
    have h2 : Int.tdiv (Opt.croppedCols image.cols angle) 2 =
        Opt.croppedCols image.cols angle / 2 :=
      Int.tdiv_eq_ediv hcc (by norm_num)
    omega
  · exact resize_size _ _
  · exact resize_size _ _

/-- C7 witness input: the 3600-wide frame (even crop width). -/
theorem C7_origHSize_is_left_strip_witness :
    optimizeOk frameA 180 90 ∧
      (Optimizer.optimizeImage frameA 180 90).origHSize =
        (Opt.left frameA 180).size :=
  ⟨by decide, (C7_origHSize_is_left_strip frameA 180 90 (by decide)).1⟩

/-- C8 counterexample: on the 9-row frame at azimuth 180 and elevation 100
every runtime check of the encoder passes, yet the constructed record's
`focused` panel is empty (zero rows), falsifying "all five panels
non-empty". -/
theorem C8_counterexample_empty_focused :
    optimizeOk frameShallow 180 100 ∧
      (Optimizer.optimizeImage frameShallow 180 100).focused.rows = 0 := by
  refine ⟨by decide, by decide⟩

/-- C8 amended: every record built by a run that passes all runtime checks
has non-empty blurred panels, strictly positive `origHSize`/`origVSize`
components and `0 ≤ leftBuffer < fullSize.width`; the `focused` panel
always has positive width, but its row count is positive only when the
vertical focus band `focusHeight` is at least 2 (on shallower frames the
code constructs an empty focused panel). -/
theorem C8_record_invariants (image : Image) (angle vAngle : Int)
    (hok : optimizeOk image angle vAngle) :
    (0 < (Optimizer.optimizeImage image angle vAngle).blurredLeft.rows ∧
      0 < (Optimizer.optimizeImage image angle vAngle).blurredLeft.cols) ∧
    (0 < (Optimizer.optimizeImage image angle vAngle).blurredRight.rows ∧
      0 < (Optimizer.optimizeImage image angle vAngle).blurredRight.cols) ∧
    (0 < (Optimizer.optimizeImage image angle vAngle).blurredTop.rows ∧
      0 < (Optimizer.optimizeImage image angle vAngle).blurredTop.cols) ∧
    (0 < (Optimizer.optimizeImage image angle vAngle).blurredBottom.rows ∧
      0 < (Optimizer.optimizeImage image angle vAngle).blurredBottom.cols) ∧
    (0 < (Optimizer.optimizeImage image angle vAngle).origHSize.width ∧
      0 < (Optimizer.optimizeImage image angle vAngle).origHSize.height) ∧
    (0 < (Optimizer.optimizeImage image angle vAngle).origVSize.width ∧
      0 < (Optimizer.optimizeImage image angle vAngle).origVSize.height) ∧
    (0 ≤ (Optimizer.optimizeImage image angle vAngle).leftBuffer ∧
      (Optimizer.optimizeImage image angle vAngle).leftBuffer <
        (Optimizer.optimizeImage image angle vAngle).fullSize.width) ∧
    0 < (Optimizer.optimizeImage image angle vAngle).focused.cols ∧
    (2 ≤ Opt.focusHeight image.rows →
      0 < (Optimizer.optimizeImage image angle vAngle).focused.rows) := by
  obtain ⟨-, hlc0, hlcw, hrc0, hrcw, hfl0, hflr, hfrc, hrzL, hrzR, hft0, hftb,
    hfbh, hrzT, hrzB⟩ := hok
  obtain ⟨hLr, hLc, hLh, hLw⟩ := hrzL
  obtain ⟨hTr, hTc, hTh, hTw⟩ := hrzT
  rw [Opt.left_rows] at hLr
  rw [Opt.left_cols] at hLc
  rw [Opt.top_rows] at hTr
  rw [Opt.top_cols] at hTc
  refine ⟨⟨?_, ?_⟩, ⟨?_, ?_⟩, ⟨?_, ?_⟩, ⟨?_, ?_⟩, ⟨?_, ?_⟩, ⟨?_, ?_⟩,
    ⟨?_, ?_⟩, ?_, ?_⟩
  · rw [optimizeImage_blurredLeft, Opt.blurredLeft_rows]
    exact hLh
  · rw [optimizeImage_blurredLeft, Opt.blurredLeft_cols]
    exact hLw
  · rw [optimizeImage_blurredRight, Opt.blurredRight_rows]
    exact hLh
  · rw [optimizeImage_blurredRight, Opt.blurredRight_cols]
    exact hLw
  · rw [optimizeImage_blurredTop, Opt.blurredTop_rows]
    exact hTh
  · rw [optimizeImage_blurredTop, Opt.blurredTop_cols]
    exact hTw
  · rw [optimizeImage_blurredBottom, Opt.blurredBottom_rows]
    exact hTh
  · rw [optimizeImage_blurredBottom, Opt.blurredBottom_cols]
    exact hTw
  · rw [optimizeImage_origHSize, Opt.origHSize_eq]
    exact hLc
  · rw [optimizeImage_origHSize, Opt.origHSize_eq]
    exact hLr
  · rw [optimizeImage_origVSize, Opt.origVSize_eq]
    exact hTc
  · rw [optimizeImage_origVSize, Opt.origVSize_eq]
    exact hTr
  · rw [optimizeImage_leftBuffer]
    exact hlc0
  · rw [optimizeImage_leftBuffer, optimizeImage_fullSize, Image.size_width]
    exact hlcw
  · rw [optimizeImage_focused, Opt.focused_cols]
    omega
  · intro hfh
    rw [optimizeImage_focused, Opt.focused_rows]
    unfold Opt.focusBottomRow Opt.focusTopRow
    have hfh0 : (0 : Int) ≤ Opt.focusHeight image.rows := by omega
    have h2 : Int.tdiv (Opt.focusHeight image.rows) 2 =
        Opt.focusHeight image.rows / 2 := Int.tdiv_eq_ediv hfh0 (by norm_num)
    omega

/-! ### Claim C6 -/

theorem smallSize_width (image : Image) (angle : Int) :
    (Opt.smallSize image angle).width =
      Int.tdiv (Opt.focusLeftCol image.cols angle) 5 := by
  have h : (Opt.smallSize image angle).width =
      Int.tdiv (Opt.left image angle).cols BLUR_FACTOR := rfl
  rw [h, Opt.left_cols]
  rfl

theorem smallSize_height (image : Image) (angle : Int) :
    (Opt.smallSize image angle).height = Int.tdiv image.rows 5 := by
  have h : (Opt.smallSize image angle).height =
      Int.tdiv (Opt.left image angle).rows BLUR_FACTOR := rfl
  rw [h, Opt.left_rows]
  rfl

theorem smallVSize_width (image : Image) (angle vAngle : Int) :
    (Opt.smallVSize image angle vAngle).width =
      Int.tdiv (Opt.focusRightCol image.cols angle - Opt.focusLeftCol image.cols angle) 5 := by
  have h : (Opt.smallVSize image angle vAngle).width =
      Int.tdiv (Opt.top image angle vAngle).cols BLUR_FACTOR := rfl
  rw [h, Opt.top_cols]
  rfl

theorem smallVSize_height (image : Image) (angle vAngle : Int) :
    (Opt.smallVSize image angle vAngle).height =
      Int.tdiv (Opt.focusTopRow image.rows vAngle) 5 := by
  have h : (Opt.smallVSize image angle vAngle).height =
      Int.tdiv (Opt.top image angle vAngle).rows BLUR_FACTOR := rfl
  rw [h, Opt.top_rows]
  rfl

/-- Closed form of the record's total byte count. -/
theorem optimizeImage_size_eq (image : Image) (angle vAngle : Int) :
    (Optimizer.optimizeImage image angle vAngle).size =
      ((Opt.focusBottomRow image.rows vAngle - Opt.focusTopRow image.rows vAngle) *
          (Opt.focusRightCol image.cols angle - Opt.focusLeftCol image.cols angle)) * 3 +
        2 * (Int.tdiv image.rows 5 * Int.tdiv (Opt.focusLeftCol image.cols angle) 5) * 3 +
        2 * (Int.tdiv (Opt.focusTopRow image.rows vAngle) 5 *
          Int.tdiv (Opt.focusRightCol image.cols angle -
            Opt.focusLeftCol image.cols angle) 5) * 3 := by
  unfold OptimizedImage.size imageSize
  rw [optimizeImage_focused, optimizeImage_blurredLeft, optimizeImage_blurredRight,
    optimizeImage_blurredTop, optimizeImage_blurredBottom,
    Opt.focused_rows, Opt.focused_cols,
    Opt.blurredLeft_rows, Opt.blurredLeft_cols,
    Opt.blurredRight_rows, Opt.blurredRight_cols,
    Opt.blurredTop_rows, Opt.blurredTop_cols,
    Opt.blurredBottom_rows, Opt.blurredBottom_cols,
    smallSize_width, smallSize_height, smallVSize_width, smallVSize_height]
  ring

theorem croppedCols_le (w angle : Int) (h1 : 0 ≤ Opt.leftCol w angle)
    (h2 : Opt.rightCol w angle < w) : Opt.croppedCols w angle ≤ w := by
  unfold Opt.croppedCols
  split <;> omega

/-- C6: whenever every runtime check passes (the shrink factor is the
constant `BLUR_FACTOR = 5 > 1`), the five panels of the record are
strictly smaller, in total bytes, than the source frame. -/
theorem C6_compressed_strictly_smaller (image : Image) (angle vAngle : Int)
    (hok : optimizeOk image angle vAngle) :
    (Optimizer.optimizeImage image angle vAngle).size < imageSize image := by
  obtain ⟨-, hlc0, hlcw, hrc0, hrcw, hfl0, hflr, hfrc, hrzL, hrzR, hft0, hftb,
    hfbh, hrzT, hrzB⟩ := hok
  have hhpos : 0 < image.rows := by
    have h := hrzL.1
    rwa [Opt.left_rows] at h
  have hwpos : 0 < image.cols := by omega
  have hw0 : (0 : Int) ≤ image.cols := by omega
  have hh0 : (0 : Int) ≤ image.rows := by omega
  -- the angular band widths in floor form
  have hfw : Opt.focusWidth image.cols = image.cols / 18 := by
    unfold Opt.focusWidth H_FOCUS_ANGLE
    rw [Int.tdiv_eq_ediv (by positivity) (by norm_num),
      show (360 : Int) = 20 * 18 by norm_num,
      Int.mul_ediv_mul_of_pos _ _ (show (0 : Int) < 20 by norm_num)]
  have hfh : Opt.focusHeight image.rows = image.rows / 9 := by
    unfold Opt.focusHeight V_FOCUS_ANGLE
    rw [Int.tdiv_eq_ediv (by positivity) (by norm_num),
      show (180 : Int) = 20 * 9 by norm_num,
      Int.mul_ediv_mul_of_pos _ _ (show (0 : Int) < 20 by norm_num)]
  have hfw0 : 0 ≤ Opt.focusWidth image.cols := by
    rw [hfw]
    exact Int.ediv_nonneg hw0 (by norm_num)
  have hfh0 : 0 ≤ Opt.focusHeight image.rows := by
    rw [hfh]
    exact Int.ediv_nonneg hh0 (by norm_num)
  -- crop width bounds
  have hcc0 : 0 ≤ Opt.croppedCols image.cols angle := by omega
  have hccw : Opt.croppedCols image.cols angle ≤ image.cols :=
    croppedCols_le image.cols angle hlc0 hrcw
  -- the horizontal focus band is at most width/18 columns
  have hband : Opt.focusRightCol image.cols angle - Opt.focusLeftCol image.cols angle =
      2 * Int.tdiv (Opt.focusWidth image.cols) 2 := by
    unfold Opt.focusRightCol Opt.focusLeftCol
    ring
  have hband_le : Opt.focusRightCol image.cols angle -
      Opt.focusLeftCol image.cols angle ≤ image.cols / 18 := by
    rw [hband]
    have h1 : Int.tdiv (Opt.focusWidth image.cols) 2 =
        Opt.focusWidth image.cols / 2 := Int.tdiv_eq_ediv hfw0 (by norm_num)
    rw [h1, ← hfw]
    omega
  -- the vertical focus band is at most height/9 rows
  have hfocr : Opt.focusBottomRow image.rows vAngle - Opt.focusTopRow image.rows vAngle =
      2 * Int.tdiv (Opt.focusHeight image.rows) 2 := by
    unfold Opt.focusBottomRow Opt.focusTopRow
    ring
  have hfocr_le : Opt.focusBottomRow image.rows vAngle -
      Opt.focusTopRow image.rows vAngle ≤ image.rows / 9 := by
    rw [hfocr]
    have h1 : Int.tdiv (Opt.focusHeight image.rows) 2 =
        Opt.focusHeight image.rows / 2 := Int.tdiv_eq_ediv hfh0 (by norm_num)
    rw [h1, ← hfh]
    omega
  -- the left strip is at most half the frame wide
  have hflc_le : Opt.focusLeftCol image.cols angle ≤ image.cols / 2 := by
    unfold Opt.focusLeftCol
    have h1 : Int.tdiv (Opt.croppedCols image.cols angle) 2 =
        Opt.croppedCols image.cols angle / 2 := Int.tdiv_eq_ediv hcc0 (by norm_num)
    have h2 : 0 ≤ Int.tdiv (Opt.focusWidth image.cols) 2 :=
      Int.tdiv_nonneg hfw0 (by norm_num)
    have h3 : Opt.croppedCols image.cols angle / 2 ≤ image.cols / 2 :=
      Int.ediv_le_ediv (by norm_num) hccw
    omega
  -- truncation to floor on the downsampled sizes
  have e1 : Int.tdiv image.rows 5 = image.rows / 5 :=
    Int.tdiv_eq_ediv hh0 (by norm_num)
  have e2 : Int.tdiv (Opt.focusLeftCol image.cols angle) 5 =
      Opt.focusLeftCol image.cols angle / 5 := Int.tdiv_eq_ediv hfl0 (by norm_num)
  have e3 : Int.tdiv (Opt.focusTopRow image.rows vAngle) 5 =
      Opt.focusTopRow image.rows vAngle / 5 := Int.tdiv_eq_ediv hft0 (by norm_num)
  have e4 : Int.tdiv (Opt.focusRightCol image.cols angle -
      Opt.focusLeftCol image.cols angle) 5 =
      (Opt.focusRightCol image.cols angle - Opt.focusLeftCol image.cols angle) / 5 :=
    Int.tdiv_eq_ediv (by omega) (by norm_num)
  -- byte bound on the focused panel
  have hA : (Opt.focusBottomRow image.rows vAngle - Opt.focusTopRow image.rows vAngle) *
      (Opt.focusRightCol image.cols angle - Opt.focusLeftCol image.cols angle) ≤
      image.rows * image.cols / 162 := by
    have h1 : (Opt.focusBottomRow image.rows vAngle - Opt.focusTopRow image.rows vAngle) *
        (Opt.focusRightCol image.cols angle - Opt.focusLeftCol image.cols angle) ≤
        (image.rows / 9) * (image.cols / 18) := by
      apply mul_le_mul hfocr_le hband_le (by omega)
      exact Int.ediv_nonneg hh0 (by norm_num)
    have h2 := ediv_mul_ediv_le 9 18 hh0 hw0 (by norm_num) (by norm_num)
    have h3 : (9 : Int) * 18 = 162 := by norm_num
    rw [h3] at h2
    omega
  -- byte bound on each horizontal blurred strip
  have hBL : image.rows / 5 * (Opt.focusLeftCol image.cols angle / 5) ≤
      image.rows * image.cols / 50 := by
    have h1 : Opt.focusLeftCol image.cols angle / 5 ≤ image.cols / 2 / 5 :=
      Int.ediv_le_ediv (by norm_num) hflc_le
    have h2 : image.cols / 2 / 5 = image.cols / 10 :=
      ediv_ediv image.cols 2 5 (by norm_num) (by norm_num)
    have h3 : image.rows / 5 * (Opt.focusLeftCol image.cols angle / 5) ≤
        image.rows / 5 * (image.cols / 10) := by
      apply mul_le_mul_of_nonneg_left _ (Int.ediv_nonneg hh0 (by norm_num))
      omega
    have h4 := ediv_mul_ediv_le 5 10 hh0 hw0 (by norm_num) (by norm_num)
    have h5 : (5 : Int) * 10 = 50 := by norm_num
    rw [h5] at h4
    omega
  -- byte bound on each vertical blurred strip
  have hBT : Opt.focusTopRow image.rows vAngle / 5 *
      ((Opt.focusRightCol image.cols angle - Opt.focusLeftCol image.cols angle) / 5) ≤
      image.rows * image.cols / 450 := by
    have h1 : Opt.focusTopRow image.rows vAngle / 5 ≤ image.rows / 5 :=
      Int.ediv_le_ediv (by norm_num) (by omega)
    have h2 : (Opt.focusRightCol image.cols angle - Opt.focusLeftCol image.cols angle) / 5 ≤
        image.cols / 18 / 5 := Int.ediv_le_ediv (by norm_num) hband_le
    have h3 : image.cols / 18 / 5 = image.cols / 90 :=
      ediv_ediv image.cols 18 5 (by norm_num) (by norm_num)
    have h4 : Opt.focusTopRow image.rows vAngle / 5 *
        ((Opt.focusRightCol image.cols angle - Opt.focusLeftCol image.cols angle) / 5) ≤
        (image.rows / 5) * (image.cols / 90) := by
      apply mul_le_mul h1 (by omega) _ (Int.ediv_nonneg hh0 (by norm_num))
      exact Int.ediv_nonneg (by omega) (by norm_num)
    have h5 := ediv_mul_ediv_le 5 90 hh0 hw0 (by norm_num) (by norm_num)
    have h6 : (5 : Int) * 90 = 450 := by norm_num
    rw [h6] at h5
    omega
  have hN : 0 < image.rows * image.cols := mul_pos hhpos hwpos
  rw [optimizeImage_size_eq, e1, e2, e3, e4]
  unfold imageSize
  omega

/-- C6 witness input: the full-scale frame. -/
theorem C6_compressed_strictly_smaller_witness :
    optimizeOk frameA 180 90 ∧
      (Optimizer.optimizeImage frameA 180 90).size < imageSize frameA :=
  ⟨by decide, C6_compressed_strictly_smaller frameA 180 90 (by decide)⟩

/-- C8 witness input: the full-scale frame, whose focus band is 200 rows. -/
theorem C8_record_invariants_witness :
    optimizeOk frameA 180 90 ∧
      (0 ≤ (Optimizer.optimizeImage frameA 180 90).leftBuffer ∧
        (Optimizer.optimizeImage frameA 180 90).leftBuffer <
          (Optimizer.optimizeImage frameA 180 90).fullSize.width) :=
  ⟨by decide, (C8_record_invariants frameA 180 90 (by decide)).2.2.2.2.2.2.1⟩

/-! ### Claim C1 -/

/-- C1 evaluated at the failing input (3600 x 1800 frame, azimuth 180,
elevation 80).  The encoder accepts the input (all its checks pass), but
`extractImage` upsamples *both* vertical peripherals to `origVSize` --
the recorded size of the `top` strip alone (lines 166-167) -- so the
reassembled interior holds 700 + 200 + 700 = 1600 rows while the side
strips hold 1800: the `cv::hconcat` row-count assertion fails
(`extractOk` is false) and no full-size frame is produced, contradicting
both the round-trip claim and the code's own
`ENSURES(fullImage.size() == optImage.fullSize)`. -/
theorem C1_decode_fails_off_center_elevation :
    optimizeOk frameA 180 80 ∧
      (Ext.middle (Optimizer.optimizeImage frameA 180 80)).rows = 1600 ∧
      (Ext.left (Optimizer.optimizeImage frameA 180 80)).rows = 1800 ∧
      ¬hconcatOk (Ext.left (Optimizer.optimizeImage frameA 180 80))
        (Ext.middle (Optimizer.optimizeImage frameA 180 80)) ∧
      ¬extractOk (Optimizer.optimizeImage frameA 180 80) :=
  ⟨by decide, by decide, by decide, by decide, by decide⟩

/-! ### Claim C2 -/

/-- C2: the focused patch is never resized: wherever both transforms pass
all their runtime checks, every pixel of the decoded frame inside the
focus region -- rows `[focusTopRow, focusBottomRow)`, columns
`leftBuffer + focusLeftCol + [0, focused.cols)` taken modulo the frame
width -- is bit-identical to the source frame's pixel at the same
coordinates, in both placement branches of the reconstruction. -/
theorem C2_focused_patch_bit_identical (image : Image) (angle vAngle : Int)
    (hok : optimizeOk image angle vAngle)
    (hex : extractOk (Optimizer.optimizeImage image angle vAngle))
    (r c : Int) (hr0 : 0 ≤ r)
    (hr : r < (Opt.focused image angle vAngle).rows)
    (hc0 : 0 ≤ c)
    (hc : c < (Opt.focused image angle vAngle).cols) :
    (Optimizer.extractImage (Optimizer.optimizeImage image angle vAngle)).pix
        (Opt.focusTopRow image.rows vAngle + r)
        ((Opt.leftCol image.cols angle + Opt.focusLeftCol image.cols angle + c) %
          image.cols) =
      image.pix (Opt.focusTopRow image.rows vAngle + r)
        ((Opt.leftCol image.cols angle + Opt.focusLeftCol image.cols angle + c) %
          image.cols) := by
  set o := Optimizer.optimizeImage image angle vAngle with ho
  obtain ⟨-, hlc0, hlcw, hrc0, hrcw, hfl0, hflr, hfrc, hrzL, hrzR, hft0, hftb,
    hfbh, hrzT, hrzB⟩ := hok
  rw [Opt.focused_rows] at hr
  rw [Opt.focused_cols] at hc
  have hcc0 : 0 ≤ Opt.croppedCols image.cols angle := by omega
  have hccw : Opt.croppedCols image.cols angle ≤ image.cols :=
    croppedCols_le image.cols angle hlc0 hrcw
  have hsum : Opt.focusLeftCol image.cols angle + Opt.focusRightCol image.cols angle =
      2 * Int.tdiv (Opt.croppedCols image.cols angle) 2 := by
    unfold Opt.focusLeftCol Opt.focusRightCol
    ring
  have htd : Int.tdiv (Opt.croppedCols image.cols angle) 2 =
      Opt.croppedCols image.cols angle / 2 := Int.tdiv_eq_ediv hcc0 (by norm_num)
  have hsum_le : Opt.focusLeftCol image.cols angle + Opt.focusRightCol image.cols angle ≤
      Opt.croppedCols image.cols angle := by omega
  -- record components
  have hfoc : o.focused = Opt.focused image angle vAngle := by
    rw [ho, optimizeImage_focused]
  have horigH : o.origHSize =
      (⟨Opt.focusLeftCol image.cols angle, image.rows⟩ : Size) := by
    rw [ho, optimizeImage_origHSize, Opt.origHSize_eq]
  have horigV : o.origVSize =
      (⟨Opt.focusRightCol image.cols angle - Opt.focusLeftCol image.cols angle,
        Opt.focusTopRow image.rows vAngle⟩ : Size) := by
    rw [ho, optimizeImage_origVSize, Opt.origVSize_eq]
  have hlb : o.leftBuffer = Opt.leftCol image.cols angle := by
    rw [ho, optimizeImage_leftBuffer]
  have hfullw : o.fullSize.width = image.cols := by
    rw [ho, optimizeImage_fullSize, Image.size_width]
  -- decoded component sizes
  have hextL_cols : (Ext.left o).cols = Opt.focusLeftCol image.cols angle := by
    unfold Ext.left
    rw [resize_cols, horigH]
  have hextR_cols : (Ext.right o).cols = Opt.focusLeftCol image.cols angle := by
    unfold Ext.right
    rw [resize_cols, horigH]
  have hextT_rows : (Ext.top o).rows = Opt.focusTopRow image.rows vAngle := by
    unfold Ext.top
    rw [resize_rows, horigV]
  have hextT_cols : (Ext.top o).cols =
      Opt.focusRightCol image.cols angle - Opt.focusLeftCol image.cols angle := by
    unfold Ext.top
    rw [resize_cols, horigV]
  have hfoc_rows : o.focused.rows =
      Opt.focusBottomRow image.rows vAngle - Opt.focusTopRow image.rows vAngle := by
    rw [hfoc, Opt.focused_rows]
  have hmid_cols : (Ext.middle o).cols =
      Opt.focusRightCol image.cols angle - Opt.focusLeftCol image.cols angle := by
    unfold Ext.middle vconcat3
    rw [vconcat_cols, vconcat_cols, hextT_cols]
  have hcropI_cols : (Ext.croppedImage o).cols =
      Opt.focusLeftCol image.cols angle +
        (Opt.focusRightCol image.cols angle - Opt.focusLeftCol image.cols angle) +
        Opt.focusLeftCol image.cols angle := by
    unfold Ext.croppedImage hconcat3
    rw [hconcat_cols, hconcat_cols, hextL_cols, hmid_cols, hextR_cols]
  have hre : Ext.rightEndExclusive o = image.cols - Opt.leftCol image.cols angle := by
    unfold Ext.rightEndExclusive
    rw [hlb, hfullw]
  -- the reconstructed crop agrees with the encoder's crop on the focus patch
  have key1 : (Ext.croppedImage o).pix
      (Opt.focusTopRow image.rows vAngle + r) (Opt.focusLeftCol image.cols angle + c) =
      (Opt.cropped image angle).pix (Opt.focusTopRow image.rows vAngle + r)
        (Opt.focusLeftCol image.cols angle + c) := by
    have hcnd1 : Opt.focusLeftCol image.cols angle + c <
        (hconcat (Ext.left o) (Ext.middle o)).cols := by
      rw [hconcat_cols, hextL_cols, hmid_cols]
      omega
    have hcnd2 : ¬Opt.focusLeftCol image.cols angle + c < (Ext.left o).cols := by
      rw [hextL_cols]
      omega
    unfold Ext.croppedImage hconcat3
    rw [hconcat_pix_left _ _ _ _ hcnd1, hconcat_pix_right _ _ _ _ hcnd2,
      show Opt.focusLeftCol image.cols angle + c - (Ext.left o).cols = c by
        rw [hextL_cols]; ring]
    have hcnd3 : Opt.focusTopRow image.rows vAngle + r <
        (vconcat (Ext.top o) o.focused).rows := by
      rw [vconcat_rows, hextT_rows, hfoc_rows]
      omega
    have hcnd4 : ¬Opt.focusTopRow image.rows vAngle + r < (Ext.top o).rows := by
      rw [hextT_rows]
      omega
    unfold Ext.middle vconcat3
    rw [vconcat_pix_top _ _ _ _ hcnd3, vconcat_pix_bottom _ _ _ _ hcnd4,
      show Opt.focusTopRow image.rows vAngle + r - (Ext.top o).rows = r by
        rw [hextT_rows]; ring]
    rw [hfoc]
    unfold Opt.focused Opt.middle
    rw [rowRange_pix, colRange_pix]
  by_cases hwr : Ext.wraps o
  · -- wrap placement branch
    have hwrIneq : image.cols ≤
        Opt.focusLeftCol image.cols angle +
          (Opt.focusRightCol image.cols angle - Opt.focusLeftCol image.cols angle) +
          Opt.focusLeftCol image.cols angle + Opt.leftCol image.cols angle := by
      have h := hwr
      unfold Ext.wraps at h
      rw [hcropI_cols, hlb, hfullw] at h
      omega
    -- in the wrap placement the encoder's crop necessarily wrapped too
    have hencw : ¬(Opt.leftCol image.cols angle < Opt.rightCol image.cols angle) := by
      intro h
      have hcceq : Opt.croppedCols image.cols angle =
          Opt.rightCol image.cols angle - Opt.leftCol image.cols angle := by
        unfold Opt.croppedCols
        rw [if_pos h]
      omega
    have hFLcols : (Ext.fullLeft o).cols =
        Opt.focusLeftCol image.cols angle +
          (Opt.focusRightCol image.cols angle - Opt.focusLeftCol image.cols angle) +
          Opt.focusLeftCol image.cols angle -
          (image.cols - Opt.leftCol image.cols angle) := by
      unfold Ext.fullLeft
      rw [if_pos hwr, colRange_cols, hcropI_cols, hre]
    have hFCcols : (Ext.fullCenter o).cols =
        image.cols - (image.cols - Opt.leftCol image.cols angle) -
          (Opt.focusLeftCol image.cols angle +
            (Opt.focusRightCol image.cols angle - Opt.focusLeftCol image.cols angle) +
            Opt.focusLeftCol image.cols angle -
            (image.cols - Opt.leftCol image.cols angle)) := by
      unfold Ext.fullCenter
      rw [if_pos hwr, black_cols, hcropI_cols, hre, hfullw]
    have houter : (hconcat (Ext.fullLeft o) (Ext.fullCenter o)).cols =
        Opt.leftCol image.cols angle := by
      rw [hconcat_cols, hFLcols, hFCcols]
      ring
    by_cases hy : Opt.focusLeftCol image.cols angle + c <
        image.cols - Opt.leftCol image.cols angle
    · -- the focus column lands in the trailing part of the frame
      have hX0 : (Opt.leftCol image.cols angle + Opt.focusLeftCol image.cols angle + c) %
          image.cols =
          Opt.leftCol image.cols angle + Opt.focusLeftCol image.cols angle + c :=
        Int.emod_eq_of_lt (by omega) (by omega)
      rw [hX0]
      have hcnd5 : ¬Opt.leftCol image.cols angle + Opt.focusLeftCol image.cols angle + c <
          (hconcat (Ext.fullLeft o) (Ext.fullCenter o)).cols := by
        rw [houter]
        omega
      unfold Optimizer.extractImage hconcat3
      rw [hconcat_pix_right _ _ _ _ hcnd5, houter,
        show Opt.leftCol image.cols angle + Opt.focusLeftCol image.cols angle + c -
            Opt.leftCol image.cols angle = Opt.focusLeftCol image.cols angle + c by ring]
      unfold Ext.fullRight
      rw [if_pos hwr, colRange_pix, zero_add, key1]
      unfold Opt.cropped
      rw [if_neg hencw]
      have hcnd6 : Opt.focusLeftCol image.cols angle + c <
          (colRange image (Opt.leftCol image.cols angle) image.cols).cols := by
        rw [colRange_cols]
        omega
      rw [hconcat_pix_left _ _ _ _ hcnd6, colRange_pix,
        show Opt.leftCol image.cols angle + (Opt.focusLeftCol image.cols angle + c) =
          Opt.leftCol image.cols angle + Opt.focusLeftCol image.cols angle + c by ring]
    · -- the focus column wraps to the leading part of the frame
      have hX0 : (Opt.leftCol image.cols angle + Opt.focusLeftCol image.cols angle + c) %
          image.cols =
          Opt.leftCol image.cols angle + Opt.focusLeftCol image.cols angle + c -
            image.cols := by
        have h1 : (Opt.leftCol image.cols angle + Opt.focusLeftCol image.cols angle + c) %
            image.cols =
            (Opt.leftCol image.cols angle + Opt.focusLeftCol image.cols angle + c -
              image.cols) % image.cols := by
          conv_lhs =>
            rw [show Opt.leftCol image.cols angle + Opt.focusLeftCol image.cols angle + c =
              Opt.leftCol image.cols angle + Opt.focusLeftCol image.cols angle + c -
                image.cols + image.cols * 1 by ring]
          rw [Int.add_mul_emod_self_left]
        rw [h1]
        exact Int.emod_eq_of_lt (by omega) (by omega)
      rw [hX0]
      have hcnd5 : Opt.leftCol image.cols angle + Opt.focusLeftCol image.cols angle + c -
          image.cols < (hconcat (Ext.fullLeft o) (Ext.fullCenter o)).cols := by
        rw [houter]
        omega
      have hcnd6 : Opt.leftCol image.cols angle + Opt.focusLeftCol image.cols angle + c -
          image.cols < (Ext.fullLeft o).cols := by
        rw [hFLcols]
        omega
      unfold Optimizer.extractImage hconcat3
      rw [hconcat_pix_left _ _ _ _ hcnd5, hconcat_pix_left _ _ _ _ hcnd6]
      unfold Ext.fullLeft
      rw [if_pos hwr, colRange_pix, hre,
        show image.cols - Opt.leftCol image.cols angle +
            (Opt.leftCol image.cols angle + Opt.focusLeftCol image.cols angle + c -
              image.cols) = Opt.focusLeftCol image.cols angle + c by ring,
        key1]
      unfold Opt.cropped
      rw [if_neg hencw]
      have hcnd7 : ¬Opt.focusLeftCol image.cols angle + c <
          (colRange image (Opt.leftCol image.cols angle) image.cols).cols := by
        rw [colRange_cols]
        omega
      rw [hconcat_pix_right _ _ _ _ hcnd7, colRange_pix, colRange_cols,
        show (0 : Int) + (Opt.focusLeftCol image.cols angle + c -
            (image.cols - Opt.leftCol image.cols angle)) =
          Opt.leftCol image.cols angle + Opt.focusLeftCol image.cols angle + c -
            image.cols by ring]
  · -- contained placement branch
    have hnwIneq : Opt.focusLeftCol image.cols angle +
        (Opt.focusRightCol image.cols angle - Opt.focusLeftCol image.cols angle) +
        Opt.focusLeftCol image.cols angle + Opt.leftCol image.cols angle <
        image.cols := by
      have h := hwr
      unfold Ext.wraps at h
      rw [hcropI_cols, hlb, hfullw] at h
      omega
    have hX0 : (Opt.leftCol image.cols angle + Opt.focusLeftCol image.cols angle + c) %
        image.cols =
        Opt.leftCol image.cols angle + Opt.focusLeftCol image.cols angle + c :=
      Int.emod_eq_of_lt (by omega) (by omega)
    rw [hX0]
    have hFLcols : (Ext.fullLeft o).cols = Opt.leftCol image.cols angle := by
      unfold Ext.fullLeft
      rw [if_neg hwr, black_cols, hlb]
    have hcnd5 : Opt.leftCol image.cols angle + Opt.focusLeftCol image.cols angle + c <
        (hconcat (Ext.fullLeft o) (Ext.fullCenter o)).cols := by
      have hFCcols : (Ext.fullCenter o).cols = (Ext.croppedImage o).cols := by
        unfold Ext.fullCenter
        rw [if_neg hwr]
      rw [hconcat_cols, hFLcols, hFCcols, hcropI_cols]
      omega
    have hcnd6 : ¬Opt.leftCol image.cols angle + Opt.focusLeftCol image.cols angle + c <
        (Ext.fullLeft o).cols := by
      rw [hFLcols]
      omega
    unfold Optimizer.extractImage hconcat3
    rw [hconcat_pix_left _ _ _ _ hcnd5, hconcat_pix_right _ _ _ _ hcnd6, hFLcols,
      show Opt.leftCol image.cols angle + Opt.focusLeftCol image.cols angle + c -
          Opt.leftCol image.cols angle = Opt.focusLeftCol image.cols angle + c by ring]
    have hFCpix : (Ext.fullCenter o).pix (Opt.focusTopRow image.rows vAngle + r)
        (Opt.focusLeftCol image.cols angle + c) =
        (Ext.croppedImage o).pix (Opt.focusTopRow image.rows vAngle + r)
          (Opt.focusLeftCol image.cols angle + c) := by
      unfold Ext.fullCenter
      rw [if_neg hwr]
    rw [hFCpix, key1]
    unfold Opt.cropped
    by_cases hbr : Opt.leftCol image.cols angle < Opt.rightCol image.cols angle
    · rw [if_pos hbr, colRange_pix,
        show Opt.leftCol image.cols angle + (Opt.focusLeftCol image.cols angle + c) =
          Opt.leftCol image.cols angle + Opt.focusLeftCol image.cols angle + c by ring]
    · rw [if_neg hbr]
      have hcnd7 : Opt.focusLeftCol image.cols angle + c <
          (colRange image (Opt.leftCol image.cols angle) image.cols).cols := by
        rw [colRange_cols]
        omega
      rw [hconcat_pix_left _ _ _ _ hcnd7, colRange_pix,
        show Opt.leftCol image.cols angle + (Opt.focusLeftCol image.cols angle + c) =
          Opt.leftCol image.cols angle + Opt.focusLeftCol image.cols angle + c by ring]

/-- C2 witness input: the full-scale frame at azimuth 180, elevation 90
(both transforms pass all checks), sample offset (5, 7) in the patch. -/
theorem C2_focused_patch_bit_identical_witness :
    optimizeOk frameA 180 90 ∧
      extractOk (Optimizer.optimizeImage frameA 180 90) ∧
      ((0 : Int) ≤ 5 ∧ 5 < (Opt.focused frameA 180 90).rows) ∧
      ((0 : Int) ≤ 7 ∧ 7 < (Opt.focused frameA 180 90).cols) ∧
      (Optimizer.extractImage (Optimizer.optimizeImage frameA 180 90)).pix
          (Opt.focusTopRow frameA.rows 90 + 5)
          ((Opt.leftCol frameA.cols 180 + Opt.focusLeftCol frameA.cols 180 + 7) %
            frameA.cols) =
        frameA.pix (Opt.focusTopRow frameA.rows 90 + 5)
          ((Opt.leftCol frameA.cols 180 + Opt.focusLeftCol frameA.cols 180 + 7) %
            frameA.cols) :=
  ⟨by decide, by decide, ⟨by decide, by decide⟩, ⟨by decide, by decide⟩,
    C2_focused_patch_bit_identical frameA 180 90 (by decide) (by decide) 5 7
      (by decide) (by decide) (by decide) (by decide)⟩

/-! ### Claim C10: a buffer-level model of the encoder

`cv::Mat`s share pixel buffers: a ROI constructor is a view, while
`cv::hconcat` and `cv::resize` write through `Mat::create`, which keeps
the destination's buffer exactly when the destination already has the
requested dimensions and otherwise allocates a fresh one.  To settle the
frame-effect claim, `optimizeImage` is replayed over an explicit store
of buffers, one named definition per statement of the source. -/

/-- One owned pixel buffer. -/
structure Buf where
  rows : Int
  cols : Int
  pix : Int → Int → Int

/-- A `cv::Mat` header: buffer index plus region-of-interest geometry. -/
structure MatRef where
  buf : Nat
  rowOff : Int
  colOff : Int
  rows : Int
  cols : Int

/-- Reads a buffer from the store (junk buffer when out of range). -/
def readBuf (s : List Buf) (i : Nat) : Buf := s.getD i ⟨0, 0, fun _ _ => 0⟩

/-- Reads a pixel through a header. -/
def readPix (s : List Buf) (m : MatRef) (r c : Int) : Int :=
  (readBuf s m.buf).pix (m.rowOff + r) (m.colOff + c)

/-- The `Image` a header denotes in a given store. -/
def refImage (s : List Buf) (m : MatRef) : Image :=
  ⟨m.rows, m.cols, fun r c => readPix s m r c⟩

/-- `Mat(m, Range(r1, r2), Range(c1, c2))` at buffer level: a view, no
allocation and no write. -/
def subRef (m : MatRef) (r1 r2 c1 c2 : Int) : MatRef :=
  ⟨m.buf, m.rowOff + r1, m.colOff + c1, r2 - r1, c2 - c1⟩

/-- `Mat(m, Range::all(), Range(c1, c2))` at buffer level. -/
def colRangeRef (m : MatRef) (c1 c2 : Int) : MatRef := subRef m 0 m.rows c1 c2

/-- `Mat(m, Range(r1, r2))` at buffer level. -/
def rowRangeRef (m : MatRef) (r1 r2 : Int) : MatRef := subRef m r1 r2 0 m.cols

/-- Appends a freshly allocated buffer and returns its full-view header. -/
def alloc (s : List Buf) (rows cols : Int) (pix : Int → Int → Int) :
    List Buf × MatRef :=
  (s ++ [⟨rows, cols, pix⟩], ⟨s.length, 0, 0, rows, cols⟩)

/-- `cv::hconcat(a, b, dst)` with `dst` a fresh empty `Mat`: allocates
the concatenation. -/
def hconcatAlloc (s : List Buf) (a b : MatRef) : List Buf × MatRef :=
  alloc s a.rows (a.cols + b.cols)
    (fun r c => if c < a.cols then readPix s a r c else readPix s b r (c - a.cols))

/-- Overwrites the region a header views with new content, leaving the
rest of the buffer untouched. -/
def writeRegion (b : Buf) (m : MatRef) (f : Int → Int → Int) : Buf :=
  ⟨b.rows, b.cols, fun r c =>
    if m.rowOff ≤ r ∧ r < m.rowOff + m.rows ∧ m.colOff ≤ c ∧ c < m.colOff + m.cols then
      f (r - m.rowOff) (c - m.colOff)
    else b.pix r c⟩

/-- `cv::resize(src, dst, d)` at buffer level.  `Mat::create` inside
`resize` keeps `dst`'s buffer only when `dst` already has exactly the
requested dimensions (the interpolated pixels are then written in place,
clobbering whatever buffer `dst` shares); otherwise a fresh buffer is
allocated and `dst` is repointed at it. -/
def resizeInto (s : List Buf) (src dst : MatRef) (d : Size) : List Buf × MatRef :=
  if dst.rows = d.height ∧ dst.cols = d.width then
    (s.set dst.buf (writeRegion (readBuf s dst.buf) dst
      (fun r c => readPix s src (r * src.rows / d.height) (c * src.cols / d.width))),
      dst)
  else
    alloc s d.height d.width
      (fun r c => readPix s src (r * src.rows / d.height) (c * src.cols / d.width))

/-- A default-constructed empty `Mat` header (`Mat blurredTop`). -/
def emptyRef : MatRef := ⟨0, 0, 0, 0, 0⟩

/-- Lines 84-95 at buffer level: the crop is a view in the contiguous
branch and a freshly allocated concatenation in the wrap branch. -/
def cropStep (s : List Buf) (img : MatRef) (angle : Int) : List Buf × MatRef :=
  if Opt.leftCol img.cols angle < Opt.rightCol img.cols angle then
    (s, colRangeRef img (Opt.leftCol img.cols angle) (Opt.rightCol img.cols angle))
  else
    hconcatAlloc s (colRangeRef img (Opt.leftCol img.cols angle) img.cols)
      (colRangeRef img 0 (Opt.rightCol img.cols angle))

/-- Store after the crop (line 95). -/
def store1 (s : List Buf) (img : MatRef) (angle : Int) : List Buf :=
  (cropStep s img angle).1

/-- The `cropped` header. -/
def croppedRef (s : List Buf) (img : MatRef) (angle : Int) : MatRef :=
  (cropStep s img angle).2

/-- The `middle` header (line 108): a view of the crop. -/
def middleRef (s : List Buf) (img : MatRef) (angle : Int) : MatRef :=
  colRangeRef (croppedRef s img angle) (Opt.focusLeftCol img.cols angle)
    (Opt.focusRightCol img.cols angle)

/-- The `left` header (line 109): a view of the crop. -/
def leftRef (s : List Buf) (img : MatRef) (angle : Int) : MatRef :=
  colRangeRef (croppedRef s img angle) 0 (Opt.focusLeftCol img.cols angle)

/-- The `right` header (line 110): a view of the crop. -/
def rightRef (s : List Buf) (img : MatRef) (angle : Int) : MatRef :=
  colRangeRef (croppedRef s img angle) (Opt.focusRightCol img.cols angle)
    (croppedRef s img angle).cols

/-- `smallSize` (line 120). -/
def smallRef (s : List Buf) (img : MatRef) (angle : Int) : Size :=
  ⟨Int.tdiv (leftRef s img angle).cols 5, Int.tdiv (leftRef s img angle).rows 5⟩

/-- Store after `cv::resize(left, blurredLeft, smallSize)` (line 121),
where `blurredLeft` is a header copy of `left` (line 116). -/
def store2 (s : List Buf) (img : MatRef) (angle : Int) : List Buf :=
  (resizeInto (store1 s img angle) (leftRef s img angle) (leftRef s img angle)
    (smallRef s img angle)).1

/-- Store after `cv::resize(right, blurredRight, smallSize)` (line 122). -/
def store3 (s : List Buf) (img : MatRef) (angle : Int) : List Buf :=
  (resizeInto (store2 s img angle) (rightRef s img angle) (rightRef s img angle)
    (smallRef s img angle)).1

/-- The `top` header (line 132): a view of the band. -/
def topRef (s : List Buf) (img : MatRef) (angle vAngle : Int) : MatRef :=
  rowRangeRef (middleRef s img angle) 0 (Opt.focusTopRow img.rows vAngle)

/-- The `focused` header (line 133): a view of the band. -/
def focusedRef (s : List Buf) (img : MatRef) (angle vAngle : Int) : MatRef :=
  rowRangeRef (middleRef s img angle) (Opt.focusTopRow img.rows vAngle)
    (Opt.focusBottomRow img.rows vAngle)

/-- The `bottom` header (line 134): a view of the band. -/
def bottomRef (s : List Buf) (img : MatRef) (angle vAngle : Int) : MatRef :=
  rowRangeRef (middleRef s img angle) (Opt.focusBottomRow img.rows vAngle)
    (middleRef s img angle).rows

/-- `smallVSize` (line 141). -/
def smallVRef (s : List Buf) (img : MatRef) (angle vAngle : Int) : Size :=
  ⟨Int.tdiv (topRef s img angle vAngle).cols 5,
    Int.tdiv (topRef s img angle vAngle).rows 5⟩

/-- Store after `cv::resize(top, blurredTop, smallVSize)` (line 142),
`blurredTop` being a default-constructed empty `Mat` (line 139). -/
def store4 (s : List Buf) (img : MatRef) (angle vAngle : Int) : List Buf :=
  (resizeInto (store3 s img angle) (topRef s img angle vAngle) emptyRef
    (smallVRef s img angle vAngle)).1

/-- Store after `cv::resize(bottom, blurredBottom, smallVSize)` (line 143). -/
def store5 (s : List Buf) (img : MatRef) (angle vAngle : Int) : List Buf :=
  (resizeInto (store4 s img angle vAngle) (bottomRef s img angle vAngle) emptyRef
    (smallVRef s img angle vAngle)).1

/-- `Optimizer::optimizeImage` over the store: the final store plus the
headers of the five panels handed to the `OptimizedImage` constructor
(which only takes further shallow copies). -/
def optimizeImageRef (s : List Buf) (img : MatRef) (angle vAngle : Int) :
    List Buf × MatRef × MatRef × MatRef × MatRef × MatRef :=
  (store5 s img angle vAngle,
    focusedRef s img angle vAngle,
    (resizeInto (store1 s img angle) (leftRef s img angle) (leftRef s img angle)
      (smallRef s img angle)).2,
    (resizeInto (store2 s img angle) (rightRef s img angle) (rightRef s img angle)
      (smallRef s img angle)).2,
    (resizeInto (store3 s img angle) (topRef s img angle vAngle) emptyRef
      (smallVRef s img angle vAngle)).2,
    (resizeInto (store4 s img angle vAngle) (bottomRef s img angle vAngle) emptyRef
      (smallVRef s img angle vAngle)).2)

theorem readBuf_append (s t : List Buf) (i : Nat) (hi : i < s.length) :
    readBuf (s ++ t) i = readBuf s i := by
  unfold readBuf
  exact List.getD_append s t _ i hi

theorem cropStep_store_read (s : List Buf) (img : MatRef) (angle : Int) (i : Nat)
    (hi : i < s.length) : readBuf (store1 s img angle) i = readBuf s i := by
  unfold store1 cropStep hconcatAlloc alloc
  split
  · rfl
  · exact readBuf_append s _ i hi

theorem cropStep_store_len (s : List Buf) (img : MatRef) (angle : Int) :
    s.length ≤ (store1 s img angle).length := by
  unfold store1 cropStep hconcatAlloc alloc
  split
  · exact le_rfl
  · rw [List.length_append]
    omega

theorem resizeInto_store_read (s : List Buf) (src dst : MatRef) (d : Size) (i : Nat)
    (hi : i < s.length) (hd : dst.rows ≠ d.height ∨ dst.cols ≠ d.width) :
    readBuf (resizeInto s src dst d).1 i = readBuf s i := by
  unfold resizeInto alloc
  rw [if_neg (by tauto)]
  exact readBuf_append s _ i hi

theorem resizeInto_store_len (s : List Buf) (src dst : MatRef) (d : Size)
    (hd : dst.rows ≠ d.height ∨ dst.cols ≠ d.width) :
    s.length ≤ (resizeInto s src dst d).1.length := by
  unfold resizeInto alloc
  rw [if_neg (by tauto)]
  rw [List.length_append]
  omega

theorem croppedRef_rows (s : List Buf) (img : MatRef) (angle : Int) :
    (croppedRef s img angle).rows = img.rows := by
  unfold croppedRef cropStep hconcatAlloc alloc colRangeRef subRef
  split <;> simp

theorem leftRef_rows (s : List Buf) (img : MatRef) (angle : Int) :
    (leftRef s img angle).rows = img.rows := by
  unfold leftRef colRangeRef subRef
  simp only
  rw [sub_zero, croppedRef_rows]

theorem rightRef_rows (s : List Buf) (img : MatRef) (angle : Int) :
    (rightRef s img angle).rows = img.rows := by
  unfold rightRef colRangeRef subRef
  simp only
  rw [sub_zero, croppedRef_rows]

theorem smallRef_height (s : List Buf) (img : MatRef) (angle : Int) :
    (smallRef s img angle).height = Int.tdiv img.rows 5 := by
  unfold smallRef
  simp only
  rw [leftRef_rows]

theorem topRef_rows (s : List Buf) (img : MatRef) (angle vAngle : Int) :
    (topRef s img angle vAngle).rows = Opt.focusTopRow img.rows vAngle := by
  unfold topRef rowRangeRef subRef
  simp

theorem smallVRef_height (s : List Buf) (img : MatRef) (angle vAngle : Int) :
    (smallVRef s img angle vAngle).height =
      Int.tdiv (Opt.focusTopRow img.rows vAngle) 5 := by
  unfold smallVRef
  simp only
  rw [topRef_rows]

/-- C10: the encoder never writes to the source frame's buffer.  Every
crop it takes is a view; given a run that passes the encoder's runtime
checks, every resize destination differs in shape from its target size,
so `Mat::create` always allocates fresh buffers and the input buffer --
hence every pixel of the source frame -- is unchanged in the final
store. -/
theorem C10_input_buffer_never_modified (s : List Buf) (img : MatRef)
    (angle vAngle : Int) (hbuf : img.buf < s.length)
    (hok : optimizeOk (refImage s img) angle vAngle) :
    readBuf (optimizeImageRef s img angle vAngle).1 img.buf = readBuf s img.buf ∧
      (∀ r c, readPix (optimizeImageRef s img angle vAngle).1 img r c =
        readPix s img r c) := by
  obtain ⟨-, hlc0, hlcw, hrc0, hrcw, hfl0, hflr, hfrc, hrzL, hrzR, hft0, hftb,
    hfbh, hrzT, hrzB⟩ := hok
  -- the runtime checks force every resize target to be strictly flatter
  have hsmallh : 0 < (Opt.smallSize (refImage s img) angle).height := hrzL.2.2.1
  rw [smallSize_height] at hsmallh
  have hsmallVh : 0 < (Opt.smallVSize (refImage s img) angle vAngle).height :=
    hrzT.2.2.1
  rw [smallVSize_height] at hsmallVh
  have himgrows : (refImage s img).rows = img.rows := rfl
  rw [himgrows] at hsmallh hsmallVh
  have hrows0 : 0 ≤ img.rows := by
    by_contra h
    have h1 : Int.tdiv img.rows 5 ≤ 0 := by
      have h2 := Int.neg_tdiv img.rows 5
      have h3 : 0 ≤ Int.tdiv (-img.rows) 5 := Int.tdiv_nonneg (by omega) (by norm_num)
      omega
    omega
  have htd5 : Int.tdiv img.rows 5 = img.rows / 5 :=
    Int.tdiv_eq_ediv hrows0 (by norm_num)
  have hrowdiff : img.rows ≠ Int.tdiv img.rows 5 := by omega
  have cond2 : (leftRef s img angle).rows ≠ (smallRef s img angle).height ∨
      (leftRef s img angle).cols ≠ (smallRef s img angle).width := by
    left
    rw [leftRef_rows, smallRef_height]
    exact hrowdiff
  have cond3 : (rightRef s img angle).rows ≠ (smallRef s img angle).height ∨
      (rightRef s img angle).cols ≠ (smallRef s img angle).width := by
    left
    rw [rightRef_rows, smallRef_height]
    exact hrowdiff
  have cond4 : emptyRef.rows ≠ (smallVRef s img angle vAngle).height ∨
      emptyRef.cols ≠ (smallVRef s img angle vAngle).width := by
    left
    rw [smallVRef_height]
    show (0 : Int) ≠ Int.tdiv (Opt.focusTopRow img.rows vAngle) 5
    omega
  have l1 : img.buf < (store1 s img angle).length :=
    lt_of_lt_of_le hbuf (cropStep_store_len s img angle)
  have l2 : img.buf < (store2 s img angle).length := by
    unfold store2
    exact lt_of_lt_of_le l1 (resizeInto_store_len _ _ _ _ cond2)
  have l3 : img.buf < (store3 s img angle).length := by
    unfold store3
    exact lt_of_lt_of_le l2 (resizeInto_store_len _ _ _ _ cond3)
  have l4 : img.buf < (store4 s img angle vAngle).length := by
    unfold store4
    exact lt_of_lt_of_le l3 (resizeInto_store_len _ _ _ _ cond4)
  have hmain : readBuf (optimizeImageRef s img angle vAngle).1 img.buf =
      readBuf s img.buf := by
    have h5 : (optimizeImageRef s img angle vAngle).1 = store5 s img angle vAngle := rfl
    rw [h5]
    unfold store5
    rw [resizeInto_store_read _ _ _ _ _ l4 cond4]
    unfold store4
    rw [resizeInto_store_read _ _ _ _ _ l3 cond4]
    unfold store3
    rw [resizeInto_store_read _ _ _ _ _ l2 cond3]
    unfold store2
    rw [resizeInto_store_read _ _ _ _ _ l1 cond2]
    exact cropStep_store_read s img angle img.buf hbuf
  refine ⟨hmain, fun r c => ?_⟩
  unfold readPix
  rw [hmain]

/-- A one-buffer store holding the full-scale frame. -/
def frameStore : List Buf := [⟨1800, 3600, fun r c => r * 10000 + c⟩]

/-- A header viewing all of buffer 0. -/
def frameRef : MatRef := ⟨0, 0, 0, 1800, 3600⟩

/-- C10 witness input: a store holding the full-scale frame as buffer 0. -/
theorem C10_input_buffer_never_modified_witness :
    (frameRef.buf < frameStore.length ∧
      optimizeOk (refImage frameStore frameRef) 180 90) ∧
    readBuf (optimizeImageRef frameStore frameRef 180 90).1 frameRef.buf =
      readBuf frameStore frameRef.buf :=
  ⟨⟨by decide, by decide⟩,
    (C10_input_buffer_never_modified frameStore frameRef 180 90 (by decide)
      (by decide)).1⟩

end Conduit
